import Mathlib

/-!
Verification development for the EnvGuard core: the line-oriented `.env`
parser, the schema-driven and example-driven validators, the security
analyzer and the orchestrator that merges their results.

Modelling conventions, chosen once and used throughout:

* JS strings are Lean `String`s; the character-level work of the source
  (`trim`, `split`, `toLowerCase`, regular expressions over anchored
  ASCII patterns) is carried out on the underlying `List Char`.
  JS whitespace (`\s`, `String.prototype.trim`) is modelled over the
  ASCII range; JS string length counts UTF-16 units and is modelled as
  the character count (they agree outside astral code points).
* The anchored regular expressions of the source (identifier grammar,
  quote matching, placeholder patterns, secret shapes, the email shape)
  are translated into explicit character-list functions, including the
  fact that `.` in a JS regular expression does not match a line break.
* Host-environment primitives whose exact semantics live outside the
  repository (`Number`/`isFinite`, `new URL`, `JSON.parse`, and the
  unanchored PII scan patterns) are abstracted as boolean-valued
  parameters collected in `JsPrims`; every theorem below holds for all
  instantiations of these parameters.
* `RegExp` objects carried inside schema rules, security rules and
  ignore patterns are modelled as their `test` functions, `String → Bool`.
* File reading, config loading and `Date.now()` are external to the
  core: the orchestrator is modelled from the point where the target
  file and the example file are already parsed and the schema already
  loaded, and every `validationTime` field is modelled as 0.
-/

namespace EnvGuard

/-- JS whitespace for `trim` and `\s`, over the ASCII range. -/
def isSpaceChar (c : Char) : Bool :=
  c = ' ' || c = '\t' || c = '\n' || c = '\r' || c = '\x0b' || c = '\x0c'

/-- A character `.` can match in a JS regular expression (no line break). -/
def noLineBreak (c : Char) : Bool := !(c = '\n' || c = '\r')

/-- `String.prototype.trim` on the character list. -/
def trimChars (l : List Char) : List Char :=
  ((l.dropWhile isSpaceChar).reverse.dropWhile isSpaceChar).reverse

/-- `value.trim()`. -/
def jsTrim (s : String) : String := ⟨trimChars s.data⟩

/-- `value.toLowerCase()` (ASCII case mapping). -/
def jsToLower (s : String) : String := ⟨s.data.map Char.toLower⟩

/-- Drop one trailing carriage return from a reversed line accumulator
(the `\r?` of `content.split(/\r?\n/)`). -/
def dropCR : List Char → List Char
  | '\r' :: cs => cs
  | cs => cs

/-- The splitting loop: `cur` is the current line, reversed. A newline
ends the line, consuming one carriage return standing directly before it;
a lone carriage return stays in the line. -/
def splitLinesAux (cur : List Char) : List Char → List (List Char)
  | [] => [cur.reverse]
  | c :: rest =>
    if c = '\n' then (dropCR cur).reverse :: splitLinesAux [] rest
    else splitLinesAux (c :: cur) rest

def splitLines (l : List Char) : List (List Char) := splitLinesAux [] l

/-- `[A-Za-z_]`, the first character of the assignment key grammar. -/
def isIdentFirst (c : Char) : Bool := c.isAlpha || c = '_'

/-- `[A-Za-z0-9_]`, the remaining characters of the assignment key grammar. -/
def isIdentRest (c : Char) : Bool := c.isAlphanum || c = '_'

/-- The assignment grammar of `EnvParser.parseVariableLine`:
`/^([A-Za-z_][A-Za-z0-9_]*)\s*=\s*(.*)$/` applied to the trimmed line.
`(.*)` cannot match across a line-break character, so a remainder still
holding one (a lone carriage return inside the line) refuses the match.
Returns the key and the raw value-with-comment region (group 2). -/
def parseAssignment (t : List Char) : Option (List Char × List Char) :=
  match t.takeWhile isIdentRest with
  | [] => none
  | k0 :: ks =>
    if isIdentFirst k0 then
      match (t.dropWhile isIdentRest).dropWhile isSpaceChar with
      | '=' :: r =>
        let v := r.dropWhile isSpaceChar
        if v.any (fun c => c = '\n' || c = '\r') then none
        else some (k0 :: ks, v)
      | _ => none
    else none

/-- Does `rest` (the text after a candidate closing quote) match the
optional trailing-comment group `(\s*#.*)?$` of `extractValueAndComment`? -/
def commentTailOk (rest : List Char) : Bool :=
  rest.isEmpty ||
    ((rest.dropWhile isSpaceChar).head? == some '#' &&
      (rest.dropWhile isSpaceChar).tail.all noLineBreak)

/-- The lazy quoted-value match `^(['"])(.*?)\1(\s*#.*)?$`: the earliest
closing quote whose remainder matches the optional comment group wins;
a candidate whose remainder does not match is absorbed into the value. -/
def findClose (q : Char) : List Char → Option (List Char × List Char)
  | [] => none
  | c :: rest =>
    if c = q && commentTailOk rest then some ([], rest)
    else
      match findClose q rest with
      | some (inner, after) => some (c :: inner, after)
      | none => none

/-- Split an unquoted remainder at its first `#` (`indexOf('#')`). -/
def splitAtHash : List Char → List Char × Option (List Char)
  | [] => ([], none)
  | c :: rest =>
    if c = '#' then ([], some rest)
    else
      match splitAtHash rest with
      | (value, o) => (c :: value, o)

/-- The unquoted branch of `extractValueAndComment`: everything before the
first `#` (trimmed) is the value, everything after it (trimmed) is the
inline comment; no `#` means no comment. -/
def unquotedValue (s : List Char) : List Char × Option (List Char) :=
  match splitAtHash s with
  | (value, none) => (trimChars value, none)
  | (value, some c) => (trimChars value, some (trimChars c))

/-- `EnvParser.extractValueAndComment`: quoted values may contain `#`
characters; the quoted branch keeps the quotes around the value (the
source re-wraps them before handing the value to `processQuotes`), and
computes the comment as `commentPart.trim().substring(1).trim()`. -/
def extractValueAndComment (s : List Char) : List Char × Option (List Char) :=
  match s with
  | [] => unquotedValue []
  | q :: rest =>
    if q = '\'' || q = '"' then
      match findClose q rest with
      | some (inner, after) =>
        (q :: inner ++ [q],
         if after.isEmpty then none
         else some (trimChars (trimChars after).tail))
      | none => unquotedValue s
    else unquotedValue s

/-- One global pass of `value.replace(/p1p2/g, r)` for a two-character
pattern: left-to-right, non-overlapping. -/
def replaceAll2 (p1 p2 : Char) (r : List Char) : List Char → List Char
  | [] => []
  | [a] => [a]
  | a :: b :: rest =>
    if a = p1 && b = p2 then r ++ replaceAll2 p1 p2 r rest
    else a :: replaceAll2 p1 p2 r (b :: rest)

/-- Escape substitution inside double-quoted values, in the source's exact
order: `\n`, `\r`, `\t`, `\\`, `\"`. -/
def unescapeDouble (l : List Char) : List Char :=
  replaceAll2 '\\' '"' ['"']
    (replaceAll2 '\\' '\\' ['\\']
      (replaceAll2 '\\' 't' ['\t']
        (replaceAll2 '\\' 'r' ['\r']
          (replaceAll2 '\\' 'n' ['\n'] l))))

/-- `EnvParser.processQuotes`: single-quoted values are taken verbatim,
double-quoted values undergo escape substitution, unquoted values are
merely trimmed. -/
def processQuotes (value : List Char) : List Char × Bool :=
  let t := trimChars value
  if t.head? = some '\'' ∧ t.getLast? = some '\'' ∧ 2 ≤ t.length then
    (t.tail.dropLast, true)
  else if t.head? = some '"' ∧ t.getLast? = some '"' ∧ 2 ≤ t.length then
    (unescapeDouble t.tail.dropLast, true)
  else (t, false)

/-- `EnvVariable` of `src/types.ts`; `hasComment` is the optional inline
comment text (absent models JS `undefined`). -/
structure EnvVariable where
  key : String
  value : String
  lineNumber : Nat
  isQuoted : Bool
  hasComment : Option String := none
deriving DecidableEq, Repr

/-- `ParseError` of `src/types.ts`. -/
structure ParseError where
  lineNumber : Nat
  message : String
  line : String
deriving DecidableEq, Repr

/-- `ParsedEnvFile` of `src/types.ts` (`vars` models the source's
`variables` field, whose name is reserved in Lean). -/
structure ParsedEnvFile where
  vars : List EnvVariable
  comments : List String
  emptyLines : List Nat
  parseErrors : List ParseError
deriving DecidableEq, Repr

/-- How one line is classified by the parser: exactly one of blank,
free-standing comment, parse error, or variable record. -/
inductive LineClass where
  | blank : LineClass
  | comment (text : String) : LineClass
  | err (message line : String) : LineClass
  | varLine (key value : String) (isQuoted : Bool) (hasComment : Option String) : LineClass
deriving DecidableEq, Repr

/-- Per-line classification of `EnvParser.parseContent` /
`parseVariableLine`: trim; blank; `#` comment; assignment grammar with
value/comment extraction and quote processing; otherwise a parse error
carrying the trimmed line. -/
def classifyLine (line : List Char) : LineClass :=
  let t := trimChars line
  if t = [] then .blank
  else if t.head? = some '#' then .comment ⟨trimChars t.tail⟩
  else
    match parseAssignment t with
    | none => .err "Invalid variable assignment format" ⟨t⟩
    | some (key, rest) =>
      let vc := extractValueAndComment rest
      let pq := processQuotes vc.1
      .varLine ⟨key⟩ ⟨pq.1⟩ pq.2 (vc.2.map fun c => (⟨c⟩ : String))

/-- The accumulation loop of `EnvParser.parseContent`, with `n` the
1-based number of the first line of `ls`. -/
def parseLines : Nat → List (List Char) → ParsedEnvFile
  | _, [] => ⟨[], [], [], []⟩
  | n, l :: ls =>
    let r := parseLines (n + 1) ls
    match classifyLine l with
    | .blank => { r with emptyLines := n :: r.emptyLines }
    | .comment c => { r with comments := c :: r.comments }
    | .err m t => { r with parseErrors := ⟨n, m, t⟩ :: r.parseErrors }
    | .varLine k v q hc => { r with vars := ⟨k, v, n, q, hc⟩ :: r.vars }

namespace EnvParser

/-- `EnvParser.parseContent`: split on `/\r?\n/` and classify each line
(`parseFile` is `parseContent` after an external file read). -/
def parseContent (content : String) : ParsedEnvFile :=
  parseLines 1 (splitLines content.data)

/-- One rendered line of `EnvParser.stringify`: `KEY=value`, the value
re-wrapped in double quotes when the quoting flag is set, and
` # comment` appended when the inline comment is present and non-empty
(JS truthiness of `variable.hasComment`). -/
def lineOfVariable (v : EnvVariable) : List Char :=
  v.key.data ++ '=' ::
    ((if v.isQuoted then '"' :: v.value.data ++ ['"'] else v.value.data) ++
      (match v.hasComment with
       | some c => if c = "" then [] else ' ' :: '#' :: ' ' :: c.data
       | none => []))

/-- `lines.join('\n')`. -/
def joinLines : List (List Char) → List Char
  | [] => []
  | [l] => l
  | l :: ls => l ++ '\n' :: joinLines ls

/-- `EnvParser.stringify`: one line per variable, joined with `\n`. -/
def stringify (vs : List EnvVariable) : String :=
  ⟨joinLines (vs.map lineOfVariable)⟩

end EnvParser

example : EnvParser.parseContent "NODE_ENV=development\nPORT=3000\n" =
    ⟨[⟨"NODE_ENV", "development", 1, false, none⟩, ⟨"PORT", "3000", 2, false, none⟩],
     [], [3], []⟩ := by decide

example : EnvParser.parseContent "A=1\n\nB=2\n\nC=3" =
    ⟨[⟨"A", "1", 1, false, none⟩, ⟨"B", "2", 3, false, none⟩, ⟨"C", "3", 5, false, none⟩],
     [], [2, 4], []⟩ := by decide

example : EnvParser.parseContent "SINGLE='a b'" =
    ⟨[⟨"SINGLE", "a b", 1, true, none⟩], [], [], []⟩ := by decide

example : (EnvParser.parseContent "DOUBLE=\"tab\\there\"").vars =
    [⟨"DOUBLE", "tab\there", 1, true, none⟩] := by decide

example : (EnvParser.parseContent "# hello\nBAD LINE\nGOOD=1 # c").comments = ["hello"] := by decide

example : (EnvParser.parseContent "BAD LINE\nGOOD=1 # c").parseErrors =
    [⟨1, "Invalid variable assignment format", "BAD LINE"⟩] := by decide

example : (EnvParser.parseContent "GOOD=1 # c").vars =
    [⟨"GOOD", "1", 1, false, some "c"⟩] := by decide

example : (EnvParser.parseContent "Q=\"a # x\" # real").vars =
    [⟨"Q", "a # x", 1, true, some "real"⟩] := by decide

/-! ## Round-trip machinery (C4)

`simpleVar` renders the claim's hypotheses on a variable record: an
identifier key, no inline comment, and a value free of quotes, `#`,
backslashes and line breaks, with no leading or trailing whitespace. -/

/-- The key matches `[A-Za-z_][A-Za-z0-9_]*`. -/
def isIdentKey (l : List Char) : Bool :=
  match l with
  | [] => false
  | c :: _ => isIdentFirst c && l.all isIdentRest

/-- A value character allowed by the round-trip claim: no quote of either
kind, no `#`, no backslash, no line break. -/
def isSimpleValueChar (c : Char) : Bool :=
  !(c = '"' || c = '\'' || c = '#' || c = '\\' || c = '\n' || c = '\r')

/-- The round-trip hypotheses of C4 on one variable record. -/
def simpleVar (v : EnvVariable) : Bool :=
  isIdentKey v.key.data && v.hasComment == none &&
  v.value.data.all isSimpleValueChar &&
  (match v.value.data.head? with
   | some c => !isSpaceChar c
   | none => true) &&
  (match v.value.data.getLast? with
   | some c => !isSpaceChar c
   | none => true)

/-- An identifier character is not whitespace. -/
lemma isIdentRest_not_space {c : Char} (h : isIdentRest c = true) :
    isSpaceChar c = false := by
  cases hs : isSpaceChar c
  · rfl
  · exfalso
    have hc : c = ' ' ∨ c = '\t' ∨ c = '\n' ∨ c = '\r' ∨ c = '\x0b' ∨ c = '\x0c' := by
      simpa [isSpaceChar, or_assoc] using hs
    rcases hc with rfl | rfl | rfl | rfl | rfl | rfl <;> revert h <;> decide

/-- An identifier character is not a line break. -/
lemma isIdentRest_not_newline {c : Char} (h : isIdentRest c = true) :
    noLineBreak c = true := by
  cases hn : noLineBreak c
  · exfalso
    simp only [noLineBreak, Bool.not_eq_false', Bool.or_eq_true, decide_eq_true_eq] at hn
    rcases hn with rfl | rfl <;> revert h <;> decide
  · rfl

/-- A simple value character is not a line break. -/
lemma isSimpleValueChar_not_newline {c : Char} (h : isSimpleValueChar c = true) :
    noLineBreak c = true := by
  simp only [isSimpleValueChar, Bool.not_eq_true', Bool.or_eq_false_iff,
    decide_eq_false_iff_not, and_assoc] at h
  simp [noLineBreak, h.2.2.2.2.1, h.2.2.2.2.2]

/-- Trimming fixes a list whose first and last characters are not
whitespace. -/
lemma trimChars_eq_self {l : List Char}
    (h1 : ∀ c, l.head? = some c → isSpaceChar c = false)
    (h2 : ∀ c, l.getLast? = some c → isSpaceChar c = false) :
    trimChars l = l := by
  unfold trimChars
  have hd : l.dropWhile isSpaceChar = l := by
    cases l with
    | nil => rfl
    | cons c cs =>
      rw [List.dropWhile_cons, h1 c rfl]
      simp
  rw [hd]
  have hr : l.reverse.dropWhile isSpaceChar = l.reverse := by
    cases hrev : l.reverse with
    | nil => rfl
    | cons c cs =>
      rw [List.dropWhile_cons]
      have hlast : l.getLast? = some c := by
        rw [← List.head?_reverse, hrev]
        rfl
      rw [h2 c hlast]
      simp
  rw [hr, List.reverse_reverse]

/-- The splitting loop over a remainder with no line breaks finishes the
current line. -/
lemma splitLinesAux_no_newline : ∀ (l cur : List Char),
    (∀ c ∈ l, noLineBreak c = true) →
    splitLinesAux cur l = [cur.reverse ++ l] := by
  intro l
  induction l with
  | nil => intro cur _; simp [splitLinesAux]
  | cons c rest ih =>
    intro cur h
    have hc := h c (List.mem_cons_self c rest)
    simp only [noLineBreak, Bool.not_eq_true', Bool.or_eq_false_iff,
      decide_eq_false_iff_not] at hc
    show (if c = '\n' then (dropCR cur).reverse :: splitLinesAux [] rest
      else splitLinesAux (c :: cur) rest) = [cur.reverse ++ c :: rest]
    rw [if_neg hc.1, ih (c :: cur) (fun d hd => h d (List.mem_cons_of_mem _ hd))]
    simp

/-- A line with no line-break characters is one split line. -/
lemma splitLines_no_newline (l : List Char)
    (h : ∀ c ∈ l, noLineBreak c = true) : splitLines l = [l] := by
  unfold splitLines
  rw [splitLinesAux_no_newline l [] h]
  rfl

/-- The splitting loop breaks at a newline, with a carriage-return-free
accumulator passing through `dropCR` unchanged. -/
lemma splitLinesAux_append_newline : ∀ (l m cur : List Char),
    (∀ c ∈ l, noLineBreak c = true) → (∀ c ∈ cur, noLineBreak c = true) →
    splitLinesAux cur (l ++ '\n' :: m) =
      (cur.reverse ++ l) :: splitLinesAux [] m := by
  intro l
  induction l with
  | nil =>
    intro m cur _ hcur
    show (if ('\n' : Char) = '\n' then (dropCR cur).reverse :: splitLinesAux [] m
      else splitLinesAux ('\n' :: cur) m) = (cur.reverse ++ []) :: splitLinesAux [] m
    rw [if_pos rfl]
    have hdrop : dropCR cur = cur := by
      cases cur with
      | nil => rfl
      | cons c cs =>
        have hc := hcur c (List.mem_cons_self c cs)
        simp only [noLineBreak, Bool.not_eq_true', Bool.or_eq_false_iff,
          decide_eq_false_iff_not] at hc
        unfold dropCR
        split
        · next heq =>
          exfalso
          apply hc.2
          have := congrArg (fun t => List.head? t) heq
          simpa using this
        · rfl
    rw [hdrop]
    simp
  | cons c rest ih =>
    intro m cur h hcur
    have hc := h c (List.mem_cons_self c rest)
    simp only [noLineBreak, Bool.not_eq_true', Bool.or_eq_false_iff,
      decide_eq_false_iff_not] at hc
    show (if c = '\n' then (dropCR cur).reverse :: splitLinesAux [] (rest ++ '\n' :: m)
      else splitLinesAux (c :: cur) (rest ++ '\n' :: m)) = _
    rw [if_neg hc.1]
    rw [ih m (c :: cur) (fun d hd => h d (List.mem_cons_of_mem _ hd))]
    · simp
    · intro d hd
      rcases List.mem_cons.mp hd with rfl | hd2
      · simp [noLineBreak, hc.1, hc.2]
      · exact hcur d hd2

/-- Joining with `\n` and splitting on `/\r?\n/` are inverse on a
non-empty list of lines free of line-break characters. -/
lemma splitLines_joinLines : ∀ (ls : List (List Char)), ls ≠ [] →
    (∀ l ∈ ls, ∀ c ∈ l, noLineBreak c = true) →
    splitLines (EnvParser.joinLines ls) = ls := by
  intro ls
  induction ls with
  | nil => intro h; exact absurd rfl h
  | cons l ls ih =>
    intro _ h
    cases ls with
    | nil =>
      show splitLines (EnvParser.joinLines [l]) = [l]
      exact splitLines_no_newline l (h l (List.mem_cons_self l []))
    | cons l2 ls2 =>
      show splitLines (l ++ '\n' :: EnvParser.joinLines (l2 :: ls2)) = l :: l2 :: ls2
      unfold splitLines
      rw [splitLinesAux_append_newline l (EnvParser.joinLines (l2 :: ls2)) []
        (h l (List.mem_cons_self l (l2 :: ls2))) (by intro c hc; simp at hc)]
      rw [List.reverse_nil, List.nil_append]
      have := ih (by simp) (fun lx hlx => h lx (List.mem_cons_of_mem l hlx))
      unfold splitLines at this
      rw [this]

/-- The assignment grammar accepts `key=body` for an identifier key and a
line-break-free body with no leading whitespace, yielding exactly the key
and the body. -/
lemma parseAssignment_simple {key body : List Char}
    (hkey : isIdentKey key = true)
    (hbody : ∀ c ∈ body, noLineBreak c = true)
    (hhead : ∀ c, body.head? = some c → isSpaceChar c = false) :
    parseAssignment (key ++ '=' :: body) = some (key, body) := by
  cases key with
  | nil => simp [isIdentKey] at hkey
  | cons k0 kr =>
    have hkey' := hkey
    simp only [isIdentKey, Bool.and_eq_true, List.all_eq_true] at hkey'
    obtain ⟨hfirst, hall⟩ := hkey'
    have htake : ((k0 :: kr) ++ '=' :: body).takeWhile isIdentRest = k0 :: kr := by
      rw [List.takeWhile_append_of_pos hall, List.takeWhile_cons]
      rw [show isIdentRest '=' = false from by decide]
      simp
    have hdropid : ((k0 :: kr) ++ '=' :: body).dropWhile isIdentRest = '=' :: body := by
      rw [List.dropWhile_append_of_pos hall, List.dropWhile_cons]
      rw [show isIdentRest '=' = false from by decide]
      simp
    have hdropsp : ('=' :: body).dropWhile isSpaceChar = '=' :: body := by
      rw [List.dropWhile_cons]
      rw [show isSpaceChar '=' = false from by decide]
      simp
    have hbodysp : body.dropWhile isSpaceChar = body := by
      cases body with
      | nil => rfl
      | cons b bs =>
        rw [List.dropWhile_cons, hhead b rfl]
        simp
    have hany : body.any (fun c => c = '\n' || c = '\r') = false := by
      rw [Bool.eq_false_iff]
      intro hc
      obtain ⟨c, hc1, hc2⟩ := List.any_eq_true.mp hc
      have := hbody c hc1
      simp only [noLineBreak, Bool.not_eq_true'] at this
      rw [this] at hc2
      exact Bool.false_ne_true hc2
    unfold parseAssignment
    rw [htake, hdropid]
    simp only [hfirst, if_true, hdropsp, hbodysp, hany, Bool.false_eq_true, if_false]

/-- `findClose` at the final quote of a quote-free inner value. -/
lemma findClose_no_quote {q : Char} : ∀ {val : List Char},
    (∀ c ∈ val, c ≠ q) → findClose q (val ++ [q]) = some (val, []) := by
  intro val
  induction val with
  | nil =>
    intro _
    show findClose q [q] = some ([], [])
    unfold findClose
    rw [show (decide (q = q) && commentTailOk []) = true by simp [commentTailOk]]
    simp
  | cons c cs ih =>
    intro h
    have hc : c ≠ q := h c (List.mem_cons_self c cs)
    show findClose q (c :: (cs ++ [q])) = some (c :: cs, [])
    unfold findClose
    rw [show (decide (c = q) && commentTailOk (cs ++ [q])) = false by simp [hc]]
    simp only [Bool.false_eq_true, if_false]
    rw [ih (fun d hd => h d (List.mem_cons_of_mem c hd))]

/-- `splitAtHash` on a hash-free list. -/
lemma splitAtHash_no_hash : ∀ {l : List Char},
    (∀ c ∈ l, c ≠ '#') → splitAtHash l = (l, none) := by
  intro l
  induction l with
  | nil => intro _; rfl
  | cons c cs ih =>
    intro h
    unfold splitAtHash
    rw [if_neg (h c (List.mem_cons_self c cs))]
    rw [ih (fun d hd => h d (List.mem_cons_of_mem c hd))]

/-- One escape pass is the identity on a backslash-free list. -/
lemma replaceAll2_no_backslash {p2 : Char} {r : List Char} : ∀ {l : List Char},
    (∀ c ∈ l, c ≠ '\\') → replaceAll2 '\\' p2 r l = l := by
  intro l
  induction l with
  | nil => intro _; rfl
  | cons a tail ih =>
    intro h
    cases tail with
    | nil => rfl
    | cons b rest =>
      show replaceAll2 '\\' p2 r (a :: b :: rest) = a :: b :: rest
      unfold replaceAll2
      rw [show (decide (a = '\\') && decide (b = p2)) = false by
        simp [h a (List.mem_cons_self a (b :: rest))]]
      simp only [Bool.false_eq_true, if_false]
      rw [ih (fun d hd => h d (List.mem_cons_of_mem a hd))]

/-- Escape substitution is the identity on a backslash-free list. -/
lemma unescapeDouble_no_backslash {l : List Char}
    (h : ∀ c ∈ l, c ≠ '\\') : unescapeDouble l = l := by
  unfold unescapeDouble
  rw [replaceAll2_no_backslash h, replaceAll2_no_backslash h,
    replaceAll2_no_backslash h, replaceAll2_no_backslash h,
    replaceAll2_no_backslash h]

/-- `isIdentFirst` characters are also `isIdentRest` characters. -/
lemma isIdentFirst_isIdentRest {c : Char} (h : isIdentFirst c = true) :
    isIdentRest c = true := by
  simp only [isIdentFirst, Bool.or_eq_true, decide_eq_true_eq] at h
  rcases h with h | h
  · simp [isIdentRest, Char.isAlphanum, h]
  · simp [isIdentRest, h]

/-- A simple value character is neither kind of quote, not `#`, and not a
backslash. -/
lemma isSimpleValueChar_spec {c : Char} (h : isSimpleValueChar c = true) :
    c ≠ '"' ∧ c ≠ '\'' ∧ c ≠ '#' ∧ c ≠ '\\' := by
  simp only [isSimpleValueChar, Bool.not_eq_true', Bool.or_eq_false_iff,
    decide_eq_false_iff_not, and_assoc] at h
  exact ⟨h.1, h.2.1, h.2.2.1, h.2.2.2.1⟩

/-- `processQuotes` strips the double quotes of a simple quoted value. -/
lemma processQuotes_double_quoted {val : List Char}
    (hval : ∀ c ∈ val, isSimpleValueChar c = true) :
    processQuotes ('"' :: (val ++ ['"'])) = (val, true) := by
  have hlast : ('"' :: (val ++ ['"'])).getLast? = some '"' := by
    rw [show ('"' :: (val ++ ['"'])) = ('"' :: val) ++ ['"'] by simp]
    exact List.getLast?_concat _
  have htrim : trimChars ('"' :: (val ++ ['"'])) = '"' :: (val ++ ['"']) := by
    apply trimChars_eq_self
    · intro c hc
      cases hc
      decide
    · intro c hc
      rw [hlast] at hc
      cases hc
      decide
  have hcond1 : ¬(('"' :: (val ++ ['"'])).head? = some '\'' ∧
      ('"' :: (val ++ ['"'])).getLast? = some '\'' ∧
      2 ≤ ('"' :: (val ++ ['"'])).length) := by
    intro h
    simp at h
  have hcond2 : (('"' :: (val ++ ['"'])).head? = some '"' ∧
      ('"' :: (val ++ ['"'])).getLast? = some '"' ∧
      2 ≤ ('"' :: (val ++ ['"'])).length) := by
    refine ⟨rfl, hlast, ?_⟩
    simp only [List.length_cons, List.length_append, List.length_singleton]
    omega
  unfold processQuotes
  simp only [htrim]
  rw [if_neg hcond1, if_pos hcond2]
  have hnb : ∀ c ∈ val, c ≠ '\\' := fun c hc => (isSimpleValueChar_spec (hval c hc)).2.2.2
  simp only [List.tail_cons, List.dropLast_concat]
  rw [unescapeDouble_no_backslash hnb]

/-- `processQuotes` fixes a simple unquoted value. -/
lemma processQuotes_unquoted {val : List Char}
    (hval : ∀ c ∈ val, isSimpleValueChar c = true)
    (hhead : ∀ c, val.head? = some c → isSpaceChar c = false)
    (hlast : ∀ c, val.getLast? = some c → isSpaceChar c = false) :
    processQuotes val = (val, false) := by
  have htrim := trimChars_eq_self hhead hlast
  have hcond1 : ¬(val.head? = some '\'' ∧ val.getLast? = some '\'' ∧ 2 ≤ val.length) := by
    intro h
    cases val with
    | nil => simp at h
    | cons c cs =>
      have : c = '\'' := by
        have := h.1
        simpa using this
      exact (isSimpleValueChar_spec (hval c (List.mem_cons_self c cs))).2.1 this
  have hcond2 : ¬(val.head? = some '"' ∧ val.getLast? = some '"' ∧ 2 ≤ val.length) := by
    intro h
    cases val with
    | nil => simp at h
    | cons c cs =>
      have : c = '"' := by
        have := h.1
        simpa using this
      exact (isSimpleValueChar_spec (hval c (List.mem_cons_self c cs))).1 this
  unfold processQuotes
  simp only [htrim]
  rw [if_neg hcond1, if_neg hcond2]

/-- `extractValueAndComment` re-wraps a simple quoted value and sees no
comment. -/
lemma extract_double_quoted {val : List Char}
    (hval : ∀ c ∈ val, isSimpleValueChar c = true) :
    extractValueAndComment ('"' :: (val ++ ['"'])) = ('"' :: (val ++ ['"']), none) := by
  have hnq : ∀ c ∈ val, c ≠ '"' := fun c hc => (isSimpleValueChar_spec (hval c hc)).1
  show (match '"' :: (val ++ ['"']) with
    | [] => unquotedValue []
    | q :: rest =>
      if q = '\'' || q = '"' then
        match findClose q rest with
        | some (inner, after) =>
          (q :: inner ++ [q], if after.isEmpty then none
            else some (trimChars (trimChars after).tail))
        | none => unquotedValue ('"' :: (val ++ ['"']))
      else unquotedValue ('"' :: (val ++ ['"']))) = ('"' :: (val ++ ['"']), none)
  dsimp only
  rw [if_pos (by decide)]
  rw [findClose_no_quote hnq]
  rfl

/-- `extractValueAndComment` fixes a simple unquoted value and sees no
comment. -/
lemma extract_unquoted {val : List Char}
    (hval : ∀ c ∈ val, isSimpleValueChar c = true)
    (hhead : ∀ c, val.head? = some c → isSpaceChar c = false)
    (hlast : ∀ c, val.getLast? = some c → isSpaceChar c = false) :
    extractValueAndComment val = (val, none) := by
  have htrim := trimChars_eq_self hhead hlast
  have hsplit : splitAtHash val = (val, none) :=
    splitAtHash_no_hash (fun c hc => (isSimpleValueChar_spec (hval c hc)).2.2.1)
  cases val with
  | nil => rfl
  | cons c cs =>
    have hc := isSimpleValueChar_spec (hval c (List.mem_cons_self c cs))
    show (match c :: cs with
      | [] => unquotedValue []
      | q :: rest =>
        if q = '\'' || q = '"' then
          match findClose q rest with
          | some (inner, after) =>
            (q :: inner ++ [q], if after.isEmpty then none
              else some (trimChars (trimChars after).tail))
          | none => unquotedValue (c :: cs)
        else unquotedValue (c :: cs)) = (c :: cs, none)
    dsimp only
    rw [if_neg (by simp [hc.1, hc.2.1])]
    unfold unquotedValue
    rw [hsplit]
    dsimp only
    rw [htrim]

/-- `classifyLine` on an assignment line `key=body` whose extraction and
quote processing are known. -/
lemma classifyLine_keyBody {key body rawv value : List Char} {isQ : Bool}
    (hkey : isIdentKey key = true)
    (hbody_nl : ∀ c ∈ body, noLineBreak c = true)
    (hbody_head : ∀ c, body.head? = some c → isSpaceChar c = false)
    (hbody_last : ∀ c, ('=' :: body).getLast? = some c → isSpaceChar c = false)
    (hextract : extractValueAndComment body = (rawv, none))
    (hpq : processQuotes rawv = (value, isQ)) :
    classifyLine (key ++ '=' :: body) = .varLine ⟨key⟩ ⟨value⟩ isQ none := by
  cases key with
  | nil => simp [isIdentKey] at hkey
  | cons k0 kr =>
    have hkey' := hkey
    simp only [isIdentKey, Bool.and_eq_true, List.all_eq_true] at hkey'
    obtain ⟨hfirst, hall⟩ := hkey'
    have htrim : trimChars ((k0 :: kr) ++ '=' :: body) = (k0 :: kr) ++ '=' :: body := by
      apply trimChars_eq_self
      · intro c hc
        have hck : k0 = c := by simpa using hc
        exact hck ▸ isIdentRest_not_space (isIdentFirst_isIdentRest hfirst)
      · intro c hc
        rw [List.getLast?_append_of_ne_nil _ (by simp)] at hc
        exact hbody_last c hc
    have hne : (k0 :: kr) ++ '=' :: body ≠ [] := by simp
    have hhash : ¬((k0 :: kr) ++ '=' :: body).head? = some '#' := by
      intro hh
      have : k0 = '#' := by simpa using hh
      subst this
      revert hfirst
      decide
    have hassign := parseAssignment_simple hkey hbody_nl hbody_head
    unfold classifyLine
    simp only [htrim]
    rw [if_neg hne, if_neg hhash, hassign]
    dsimp only
    rw [hextract]
    dsimp only
    rw [hpq]
    rfl

/-- The rendered line of a simple variable classifies back to the same
key, value and quoting flag, with no inline comment. -/
lemma classifyLine_lineOfVariable {v : EnvVariable} (h : simpleVar v = true) :
    classifyLine (EnvParser.lineOfVariable v) =
      .varLine v.key v.value v.isQuoted none := by
  have h' := h
  simp only [simpleVar, Bool.and_eq_true, List.all_eq_true, beq_iff_eq] at h'
  obtain ⟨⟨⟨⟨hkey, hcom⟩, hval⟩, hheadv⟩, hlastv⟩ := h'
  have hheadv' : ∀ c, v.value.data.head? = some c → isSpaceChar c = false := by
    intro c hc
    rw [hc] at hheadv
    simpa using hheadv
  have hlastv' : ∀ c, v.value.data.getLast? = some c → isSpaceChar c = false := by
    intro c hc
    rw [hc] at hlastv
    simpa using hlastv
  have hkeymk : (⟨v.key.data⟩ : String) = v.key := rfl
  have hvalmk : (⟨v.value.data⟩ : String) = v.value := rfl
  unfold EnvParser.lineOfVariable
  rw [hcom]
  cases hq : v.isQuoted
  · -- unquoted
    simp only [Bool.false_eq_true, if_false, List.append_nil]
    rw [classifyLine_keyBody hkey
      (fun c hc => isSimpleValueChar_not_newline (hval c hc))
      hheadv'
      ?hlast
      (extract_unquoted hval hheadv' hlastv')
      (processQuotes_unquoted hval hheadv' hlastv')]
    case hlast =>
      intro c hc
      cases hvd : v.value.data with
      | nil =>
        rw [hvd] at hc
        have h2 : '=' = c := by simpa using hc
        exact h2 ▸ (by decide : isSpaceChar '=' = false)
      | cons x xs =>
        have hne2 : v.value.data ≠ [] := by rw [hvd]; simp
        rw [show ('=' :: v.value.data) = ['='] ++ v.value.data from rfl,
          List.getLast?_append_of_ne_nil _ hne2] at hc
        exact hlastv' c hc
  · -- quoted
    rw [if_pos rfl, List.append_nil]
    rw [show ('"' :: v.value.data ++ ['"']) = '"' :: (v.value.data ++ ['"']) by simp]
    rw [classifyLine_keyBody hkey ?hnl ?hhd ?hlast
      (extract_double_quoted hval)
      (processQuotes_double_quoted hval)]
    case hnl =>
      intro c hc
      rcases List.mem_cons.mp hc with rfl | hc2
      · decide
      · rcases List.mem_append.mp hc2 with hc3 | hc3
        · exact isSimpleValueChar_not_newline (hval c hc3)
        · have : c = '"' := by simpa using hc3
          subst this
          decide
    case hhd =>
      intro c hc
      have h2 : '"' = c := by simpa using hc
      exact h2 ▸ (by decide : isSpaceChar '"' = false)
    case hlast =>
      intro c hc
      rw [show ('=' :: '"' :: (v.value.data ++ ['"'])) =
        ('=' :: '"' :: v.value.data) ++ ['"'] by simp] at hc
      rw [List.getLast?_concat] at hc
      have h2 : '"' = c := by simpa using hc
      exact h2 ▸ (by decide : isSpaceChar '"' = false)

/-! ## Findings, results and schema data model (`src/types.ts`) -/

/-- Finding severity. -/
inductive Severity where
  | error | warning | info
deriving DecidableEq, Repr

/-- The `type` tag of a `ValidationError`. -/
inductive ErrorType where
  | missing_required | invalid_format | security_risk | custom
deriving DecidableEq, Repr

/-- The `type` tag of a `ValidationWarning`. -/
inductive WarningType where
  | unused_variable | weak_pattern | deprecated | custom | security_risk
deriving DecidableEq, Repr

/-- `ValidationError` (`severity` is the constant `error` and is omitted;
`varName` models the source's `variable` field, whose name is reserved
in Lean). -/
structure ValidationError where
  type : ErrorType
  varName : String
  message : String
  lineNumber : Option Nat := none
  suggestion : Option String := none
deriving DecidableEq, Repr

/-- `ValidationWarning` (`severity` is the constant `warning`). -/
structure ValidationWarning where
  type : WarningType
  varName : String
  message : String
  lineNumber : Option Nat := none
  suggestion : Option String := none
deriving DecidableEq, Repr

/-- `ValidationInfo` (`type` and `severity` are the constant `info`). -/
structure ValidationInfo where
  varName : String
  message : String
  lineNumber : Option Nat := none
deriving DecidableEq, Repr

/-- `ValidationSummary`; `validationTime` is modelled as 0 throughout. -/
structure ValidationSummary where
  totalVariables : Nat
  requiredVariables : Nat
  missingVariables : Nat
  unusedVariables : Nat
  securityIssues : Nat
  validationTime : Nat
deriving DecidableEq, Repr

/-- `ValidationResult`. -/
structure ValidationResult where
  isValid : Bool
  errors : List ValidationError
  warnings : List ValidationWarning
  info : List ValidationInfo
  summary : ValidationSummary
deriving DecidableEq, Repr

/-- Host-environment primitives the source calls and whose semantics live
outside the repository: `Number()`/`isFinite` (`looksLikeNumber`),
`new URL()` success (`looksLikeUrl`), `JSON.parse` success, a URL carrying
an embedded username or password, and the unanchored PII scan patterns of
`checkSensitiveDataExposure`. Every theorem holds for all instantiations. -/
structure JsPrims where
  looksLikeNumber : String → Bool
  looksLikeUrl : String → Bool
  isJsonValue : String → Bool
  urlWithCredentials : String → Bool
  creditCardLike : String → Bool
  ssnLike : String → Bool
  emailAnywhere : String → Bool
  ipv4Like : String → Bool

/-- A `JsPrims` instantiation with every external predicate false, used
for concrete evaluations. -/
def trivPrims : JsPrims :=
  ⟨fun _ => false, fun _ => false, fun _ => false, fun _ => false,
   fun _ => false, fun _ => false, fun _ => false, fun _ => false⟩

/-- The declared value type of a schema variable (`'string'` is `str`). -/
inductive VarType where
  | str | number | boolean | url | email | json
deriving DecidableEq, Repr

/-- `VariableSchema`: optional boolean flags model JS truthiness (absent
and `false` behave alike in every use site); `pattern` is the compiled
regular expression's `test` function; `exampleVal` models the source's
`example` field, whose name is reserved in Lean. -/
structure VariableSchema where
  required : Bool := false
  type : Option VarType := none
  pattern : Option (String → Bool) := none
  description : Option String := none
  exampleVal : Option String := none
  allowEmpty : Bool := false
  deprecated : Bool := false
  alternatives : List String := []

/-- A schema-level custom rule (`ValidationRule`): an optional pattern and
an optional custom predicate, each able to fire separately. -/
structure ValidationRule where
  name : String
  description : String
  severity : Severity
  pattern : Option (String → Bool) := none
  customValidator : Option (String → Bool) := none

/-- `EnvSchema`: `vars` models the source's `variables` object as an
association list in insertion order (JS object keys are unique);
`ignorePatterns` are the compiled ignore regular expressions. -/
structure EnvSchema where
  vars : List (String × VariableSchema)
  rules : List ValidationRule := []
  ignorePatterns : List (String → Bool) := []

/-- `SecurityRule`: `pattern` is the compiled regular expression's `test`
function. -/
structure SecurityRule where
  name : String
  description : String
  pattern : String → Bool
  severity : Severity
  suggestion : Option String := none

/-! ## JS `Map` built from a variable list

`new Map(variables.map(v => [v.key, v]))`: a later entry with the same key
overwrites the value but keeps the key's first-insertion position in the
iteration order. -/

/-- `map.get(k)`: the last record with the key. -/
def jsMapGet : List EnvVariable → String → Option EnvVariable
  | [], _ => none
  | v :: vs, k =>
    match jsMapGet vs k with
    | some w => some w
    | none => if v.key = k then some v else none

/-- `map.has(k)`. -/
def jsMapHas (vs : List EnvVariable) (k : String) : Bool :=
  vs.any (fun v => v.key == k)

/-- Keys in first-occurrence order, each once: a key already seen is
skipped (the `Map` keeps its first-insertion position). -/
def dedupFirstAux (seen : List String) : List String → List String
  | [] => []
  | k :: ks =>
    if seen.contains k then dedupFirstAux seen ks
    else k :: dedupFirstAux (k :: seen) ks

/-- Keys in first-occurrence order, each once. -/
def dedupFirst (l : List String) : List String := dedupFirstAux [] l

/-- `Array.from(map.keys())`. -/
def jsMapKeys (vs : List EnvVariable) : List String :=
  dedupFirst (vs.map (fun v => v.key))

/-- JS truthiness of an optional string (`undefined` and `''` are falsy). -/
def truthyStr : Option String → Option String
  | some s => if s = "" then none else some s
  | none => none

/-- `shouldIgnoreVariable`: some ignore pattern matches the key. -/
def shouldIgnore (patterns : List (String → Bool)) (k : String) : Bool :=
  patterns.any (fun p => p k)

/-- `this.schema.variables[key]`. -/
def schemaLookup (schema : EnvSchema) (k : String) : Option VariableSchema :=
  (schema.vars.find? (fun p => p.1 == k)).map (fun p => p.2)

/-- The boolean vocabulary `['true','false','1','0','yes','no']`, compared
against the lower-cased value (shared by the schema validator's type check
and the example validator's `looksLikeBoolean`). -/
def looksLikeBoolean (s : String) : Bool :=
  ["true", "false", "1", "0", "yes", "no"].contains (jsToLower s)

/-- `looksLikeEmail` / the schema email check,
`/^[^\s@]+@[^\s@]+\.[^\s@]+$/`: one `@` splitting a non-empty
whitespace-free local part from a domain that is non-empty, free of
whitespace and further `@`, and holds a `.` neither first nor last. -/
def emailLike (s : String) : Bool :=
  let l := s.data
  let locPart := l.takeWhile (fun c => c != '@')
  match l.dropWhile (fun c => c != '@') with
  | '@' :: domain =>
    !locPart.isEmpty && locPart.all (fun c => !isSpaceChar c) &&
    !domain.isEmpty && domain.all (fun c => !isSpaceChar c && c != '@') &&
    (domain.drop 1).dropLast.contains '.'
  | _ => false

/-! ## Placeholder predicates

`ExampleValidator.isPlaceholderValue` and
`SecurityAnalyzer.isPlaceholderValue` each test the trimmed value against
a list of anchored patterns; the two lists are written out separately
below, exactly as each source file lists them. -/

/-- `^o.*c$` for wrapper characters: `.` cannot match a line break. -/
def wrappedIn (o c : Char) (t : List Char) : Bool :=
  t.head? == some o && t.getLast? == some c && decide (2 ≤ t.length) &&
    t.tail.dropLast.all noLineBreak

/-- `^p.*$` case-insensitively for a literal pattern `p`. -/
def ciStartsWith (p : List Char) (t : List Char) : Bool :=
  (t.map Char.toLower).take p.length == p && (t.drop p.length).all noLineBreak

/-- `^p$` case-insensitively for a literal pattern `p`. -/
def ciEquals (p : List Char) (t : List Char) : Bool :=
  t.map Char.toLower == p

/-- `/^xxx+$/i`: three or more `x` characters. -/
def xxxRun (t : List Char) : Bool :=
  decide (3 ≤ t.length) && t.all (fun c => c.toLower == 'x')

namespace ExampleValidator

/-- `ExampleValidator.isPlaceholderValue`: the nine patterns of
`src/core/example-validator.ts`. -/
def isPlaceholderValue (value : String) : Bool :=
  let t := trimChars value.data
  wrappedIn '<' '>' t || wrappedIn '[' ']' t || wrappedIn '{' '}' t ||
  ciStartsWith "your_".data t || ciStartsWith "example_".data t ||
  ciEquals "placeholder".data t || ciEquals "change_me".data t ||
  ciEquals "replace_me".data t || xxxRun t

end ExampleValidator

namespace SecurityAnalyzer

/-- `SecurityAnalyzer.isPlaceholderValue`: the eleven patterns of
`src/security/analyzer.ts` (the nine of the example validator plus
`/^todo$/i` and `/^fixme$/i`). -/
def isPlaceholderValue (value : String) : Bool :=
  let t := trimChars value.data
  wrappedIn '<' '>' t || wrappedIn '[' ']' t || wrappedIn '{' '}' t ||
  ciStartsWith "your_".data t || ciStartsWith "example_".data t ||
  ciEquals "placeholder".data t || ciEquals "change_me".data t ||
  ciEquals "replace_me".data t || xxxRun t ||
  ciEquals "todo".data t || ciEquals "fixme".data t

end SecurityAnalyzer

/-! ## Schema validator (`src/core/schema-validator.ts`) -/

namespace SchemaValidator

/-- `schema.example || '<value>'` in the required-variable suggestion
(JS `||`: an absent or empty example falls back to the placeholder). -/
def exampleOrPlaceholder (e : Option String) : String :=
  match e with
  | some s => if s = "" then "<value>" else s
  | none => "<value>"

/-- `validateRequiredVariables`: one `missing_required` error per required
schema key absent from the observed map. -/
def requiredErrors (schema : EnvSchema) (vs : List EnvVariable) : List ValidationError :=
  (schema.vars.map (fun p => p.1)).filterMap fun key =>
    match schemaLookup schema key with
    | some sch =>
      if sch.required && !jsMapHas vs key then
        some { type := .missing_required, varName := key,
               message := "Required environment variable '" ++ key ++ "' is missing",
               suggestion := some (match truthyStr sch.description with
                 | some d =>
                   "Add " ++ key ++ "=" ++ exampleOrPlaceholder sch.exampleVal ++ " # " ++ d
                 | none => "Add " ++ key ++ "=" ++ exampleOrPlaceholder sch.exampleVal) }
      else none
    | none => none

/-- `validateUnusedVariables`: one `unused_variable` warning per observed
map key that is neither a schema key nor ignored; the line number comes
from the map entry (the last record with that key). -/
def unusedWarnings (schema : EnvSchema) (vs : List EnvVariable) : List ValidationWarning :=
  (jsMapKeys vs).filterMap fun key =>
    if !(schema.vars.any (fun p => p.1 == key)) &&
        !shouldIgnore schema.ignorePatterns key then
      match jsMapGet vs key with
      | some v =>
        some { type := .unused_variable, varName := key,
               message := "Variable '" ++ key ++ "' is not defined in schema",
               lineNumber := some v.lineNumber,
               suggestion := some "Remove this variable or add it to your schema" }
      | none => none
    else none

/-- `schema.example ? \`Example: ...\` : undefined`. -/
def exampleSuggestion (sch : VariableSchema) : Option String :=
  match sch.exampleVal with
  | some e => if e = "" then none else some ("Example: " ++ e)
  | none => none

/-- The deprecation warning of `validateVariableValues`. -/
def deprecatedWarnings (v : EnvVariable) (sch : VariableSchema) : List ValidationWarning :=
  if sch.deprecated then
    [{ type := .deprecated, varName := v.key,
       message := "Variable '" ++ v.key ++ "' is deprecated",
       lineNumber := some v.lineNumber,
       suggestion := some (if sch.alternatives.isEmpty then "Consider removing this variable"
         else "Consider using: " ++ String.intercalate ", " sch.alternatives) }]
  else []

/-- The empty-value error of `validateVariableValues`. -/
def emptyValueError (v : EnvVariable) (sch : VariableSchema) : ValidationError :=
  { type := .invalid_format, varName := v.key,
    message := "Variable '" ++ v.key ++ "' cannot be empty",
    lineNumber := some v.lineNumber, suggestion := exampleSuggestion sch }

/-- The expected-format description of `validateVariableType` (the
`string` case has no `switch` arm and never fails). -/
def expectedFormat : VarType → String
  | .str => ""
  | .number => "a valid number"
  | .boolean => "true, false, 1, 0, yes, or no"
  | .url => "a valid URL"
  | .email => "a valid email address"
  | .json => "valid JSON"

/-- Does the value satisfy the declared type (`validateVariableType`)? -/
def typeOk (prims : JsPrims) (ty : VarType) (value : String) : Bool :=
  match ty with
  | .str => true
  | .number => prims.looksLikeNumber value
  | .boolean => looksLikeBoolean value
  | .url => prims.looksLikeUrl value
  | .email => emailLike value
  | .json => prims.isJsonValue value

/-- `validateVariableType`: skipped for an undeclared type or an empty
trimmed value. -/
def typeErrors (prims : JsPrims) (v : EnvVariable) (sch : VariableSchema) :
    List ValidationError :=
  match sch.type with
  | none => []
  | some ty =>
    if jsTrim v.value = "" then []
    else if typeOk prims ty v.value then []
    else [{ type := .invalid_format, varName := v.key,
            message := "Variable '" ++ v.key ++ "' must be " ++ expectedFormat ty,
            lineNumber := some v.lineNumber, suggestion := exampleSuggestion sch }]

/-- `validateVariablePattern`: skipped for an undeclared pattern or an
empty trimmed value. -/
def patternErrors (v : EnvVariable) (sch : VariableSchema) : List ValidationError :=
  match sch.pattern with
  | none => []
  | some p =>
    if jsTrim v.value = "" then []
    else if p v.value then []
    else [{ type := .invalid_format, varName := v.key,
            message := "Variable '" ++ v.key ++ "' does not match required pattern",
            lineNumber := some v.lineNumber, suggestion := exampleSuggestion sch }]

/-- The per-variable body of `validateVariableValues`: deprecation warning;
then, when empty disallowed and the trimmed value empty, the empty-value
error and `continue` (type and pattern checks skipped); otherwise the
type and pattern checks. -/
def perVariable (prims : JsPrims) (schema : EnvSchema) (v : EnvVariable) :
    List ValidationError × List ValidationWarning :=
  match schemaLookup schema v.key with
  | none => ([], [])
  | some sch =>
    let w := deprecatedWarnings v sch
    if !sch.allowEmpty && jsTrim v.value == "" then
      ([emptyValueError v sch], w)
    else
      (typeErrors prims v sch ++ patternErrors v sch, w)

/-- One custom rule applied to one variable (`applyCustomRules` body):
the pattern condition and the custom-validator condition each push one
finding at the rule's severity, so both can fire for the same variable. -/
def customTriple (rule : ValidationRule) (v : EnvVariable) :
    List ValidationError × List ValidationWarning × List ValidationInfo :=
  let fire1 : Bool := match rule.pattern with
    | some p => !p v.value
    | none => false
  let fire2 : Bool := match rule.customValidator with
    | some f => !f v.value
    | none => false
  let hits : List Unit := (if fire1 then [()] else []) ++ (if fire2 then [()] else [])
  match rule.severity with
  | .error =>
    (hits.map fun _ => { type := .custom, varName := v.key, message := rule.description,
                         lineNumber := some v.lineNumber }, [], [])
  | .warning =>
    ([], hits.map fun _ => { type := .custom, varName := v.key, message := rule.description,
                             lineNumber := some v.lineNumber }, [])
  | .info =>
    ([], [], hits.map fun _ => { varName := v.key, message := rule.description,
                                 lineNumber := some v.lineNumber })

/-- The error stream of `applyCustomRules` (rules outer, variables inner). -/
def customErrors (schema : EnvSchema) (vs : List EnvVariable) : List ValidationError :=
  schema.rules.flatMap fun rule => vs.flatMap fun v => (customTriple rule v).1

/-- The warning stream of `applyCustomRules`. -/
def customWarnings (schema : EnvSchema) (vs : List EnvVariable) : List ValidationWarning :=
  schema.rules.flatMap fun rule => vs.flatMap fun v => (customTriple rule v).2.1

/-- The info stream of `applyCustomRules`. -/
def customInfos (schema : EnvSchema) (vs : List EnvVariable) : List ValidationInfo :=
  schema.rules.flatMap fun rule => vs.flatMap fun v => (customTriple rule v).2.2

/-- `SchemaValidator.createSummary`: counts derived from the emitted
findings by type tag. -/
def createSummary (schema : EnvSchema) (vs : List EnvVariable)
    (errors : List ValidationError) (warnings : List ValidationWarning) :
    ValidationSummary :=
  { totalVariables := vs.length,
    requiredVariables := (schema.vars.filter (fun p => p.2.required)).length,
    missingVariables := (errors.filter (fun e => e.type == .missing_required)).length,
    unusedVariables := (warnings.filter (fun w => w.type == .unused_variable)).length,
    securityIssues := (errors.filter (fun e => e.type == .security_risk)).length,
    validationTime := 0 }

/-- `SchemaValidator.validate`: the four passes in order, then
`isValid: errors.length === 0` and the summary. -/
def validate (prims : JsPrims) (schema : EnvSchema) (vs : List EnvVariable) :
    ValidationResult :=
  let errors := requiredErrors schema vs ++
    (vs.flatMap fun v => (perVariable prims schema v).1) ++ customErrors schema vs
  let warnings := unusedWarnings schema vs ++
    (vs.flatMap fun v => (perVariable prims schema v).2) ++ customWarnings schema vs
  { isValid := errors.isEmpty, errors := errors, warnings := warnings,
    info := customInfos schema vs,
    summary := createSummary schema vs errors warnings }

end SchemaValidator

/-! ## Example validator (`src/core/example-validator.ts`) -/

namespace ExampleValidator

/-- `generateSuggestionFromExample`: the `KEY=value # comment`
reconstruction (comment only when present and non-empty). -/
def suggestionFromExample (ev : EnvVariable) : String :=
  ev.key ++ "=" ++ ev.value ++
    (match ev.hasComment with
     | some c => if c = "" then "" else " # " ++ c
     | none => "")

/-- `validateMissingVariables`: one `missing_required` error per example
map key absent from the observed map and not ignored. -/
def missingErrors (ign : List (String → Bool)) (exVars vs : List EnvVariable) :
    List ValidationError :=
  (jsMapKeys exVars).filterMap fun key =>
    if !jsMapHas vs key && !shouldIgnore ign key then
      match jsMapGet exVars key with
      | some ev =>
        some { type := .missing_required, varName := key,
               message := "Variable '" ++ key ++ "' is present in example but missing from .env file",
               suggestion := some (suggestionFromExample ev) }
      | none => none
    else none

/-- `validateUnusedVariables`: one `unused_variable` warning per observed
map key absent from the example key set and not ignored; the line number
comes from the map entry (the last record with that key). -/
def unusedWarns (ign : List (String → Bool)) (exVars vs : List EnvVariable) :
    List ValidationWarning :=
  (jsMapKeys vs).filterMap fun key =>
    if !jsMapHas exVars key && !shouldIgnore ign key then
      match jsMapGet vs key with
      | some v =>
        some { type := .unused_variable, varName := key,
               message := "Variable '" ++ key ++ "' is not present in .env.example",
               lineNumber := some v.lineNumber,
               suggestion := some "Add this variable to .env.example or remove it if not needed" }
      | none => none
    else none

/-- `validateEmptyValues`: iterates the observed records (not the map);
fires when the observed value trims empty, the example value does not,
and the example value is not a placeholder. The warning carries the
`unused_variable` type tag. -/
def emptyWarns (exVars vs : List EnvVariable) : List ValidationWarning :=
  vs.filterMap fun v =>
    match jsMapGet exVars v.key with
    | some ev =>
      if jsTrim v.value == "" && !(jsTrim ev.value == "") &&
          !isPlaceholderValue ev.value then
        some { type := .unused_variable, varName := v.key,
               message := "Variable '" ++ v.key ++ "' is empty but has a value in example",
               lineNumber := some v.lineNumber,
               suggestion := some ("Consider setting a value. Example: " ++ ev.value) }
      else none
    | none => none

/-- `detectFormatMismatch`: skipped for a placeholder example value;
URL, number, boolean, email shapes tried in this order, first failure
wins. Returns the message and suggestion. -/
def detectFormatMismatch (prims : JsPrims) (v ev : EnvVariable) :
    Option (String × String) :=
  if isPlaceholderValue ev.value then none
  else if prims.looksLikeUrl ev.value && !prims.looksLikeUrl v.value then
    some ("Variable '" ++ v.key ++ "' should be a URL based on example",
          "Expected URL format like: " ++ ev.value)
  else if prims.looksLikeNumber ev.value && !prims.looksLikeNumber v.value then
    some ("Variable '" ++ v.key ++ "' should be a number based on example",
          "Expected number format like: " ++ ev.value)
  else if looksLikeBoolean ev.value && !looksLikeBoolean v.value then
    some ("Variable '" ++ v.key ++ "' should be a boolean based on example",
          "Expected boolean format like: " ++ ev.value)
  else if emailLike ev.value && !emailLike v.value then
    some ("Variable '" ++ v.key ++ "' should be an email based on example",
          "Expected email format like: " ++ ev.value)
  else none

/-- The warning stream of `validateValueFormats` (records whose observed
value trims empty, or with no example entry, are skipped). -/
def formatWarns (prims : JsPrims) (exVars vs : List EnvVariable) :
    List ValidationWarning :=
  vs.filterMap fun v =>
    match jsMapGet exVars v.key with
    | some ev =>
      if jsTrim v.value == "" then none
      else (detectFormatMismatch prims v ev).map fun ms =>
        { type := .weak_pattern, varName := v.key, message := ms.1,
          lineNumber := some v.lineNumber, suggestion := some ms.2 }
    | none => none

/-- The info stream of `validateValueFormats` (`getFormatInfo`): a
placeholder note for a placeholder example value — only for records whose
observed value does not trim empty, which `validateValueFormats` skips. -/
def formatInfos (exVars vs : List EnvVariable) : List ValidationInfo :=
  vs.filterMap fun v =>
    match jsMapGet exVars v.key with
    | some ev =>
      if jsTrim v.value == "" then none
      else if isPlaceholderValue ev.value then
        some { varName := v.key,
               message := "Variable '" ++ v.key ++ "' uses placeholder in example: " ++ ev.value,
               lineNumber := some v.lineNumber }
      else none
    | none => none

/-- `ExampleValidator.createSummary`: `requiredVariables` is the size of
the example list; missing/unused counts derived from the findings. -/
def createSummary (exVars vs : List EnvVariable)
    (errors : List ValidationError) (warnings : List ValidationWarning) :
    ValidationSummary :=
  { totalVariables := vs.length,
    requiredVariables := exVars.length,
    missingVariables := (errors.filter (fun e => e.type == .missing_required)).length,
    unusedVariables := (warnings.filter (fun w => w.type == .unused_variable)).length,
    securityIssues := 0,
    validationTime := 0 }

/-- `ExampleValidator.validate`: the four passes in order, then
`isValid: errors.length === 0` and the summary. -/
def validate (prims : JsPrims) (exVars : List EnvVariable)
    (ign : List (String → Bool)) (vs : List EnvVariable) : ValidationResult :=
  let errors := missingErrors ign exVars vs
  let warnings := unusedWarns ign exVars vs ++ emptyWarns exVars vs ++
    formatWarns prims exVars vs
  { isValid := errors.isEmpty, errors := errors, warnings := warnings,
    info := formatInfos exVars vs,
    summary := createSummary exVars vs errors warnings }

end ExampleValidator

/-- Does the first list occur as a prefix of the second? -/
def startsSeq : List Char → List Char → Bool
  | [], _ => true
  | _ :: _, [] => false
  | a :: as, b :: bs => a == b && startsSeq as bs

/-- `haystack.includes(needle)`: contiguous substring containment. -/
def containsSeq (needle : List Char) : List Char → Bool
  | [] => needle.isEmpty
  | c :: rest => startsSeq needle (c :: rest) || containsSeq needle rest

/-! ## Security analyzer (`src/security/analyzer.ts`)

The analyzer's constructor concatenates a fixed built-in rule list with
the caller's custom rules; `analyze` below takes the concatenated list as
its `rules` argument (rule patterns are `test` functions, see above). -/

namespace SecurityAnalyzer

/-- The three finding streams `analyze` accumulates. -/
structure SecFindings where
  errors : List ValidationError
  warnings : List ValidationWarning
  info : List ValidationInfo
deriving DecidableEq, Repr

/-- Stream concatenation in push order. -/
def mergeFindings (a b : SecFindings) : SecFindings :=
  ⟨a.errors ++ b.errors, a.warnings ++ b.warnings, a.info ++ b.info⟩

/-- `checkSecurityRules` for one rule and one variable: the rule's
pattern is tested against the literal `KEY=value` string. -/
def ruleFindingsFor (rule : SecurityRule) (v : EnvVariable) : SecFindings :=
  if rule.pattern (v.key ++ "=" ++ v.value) then
    match rule.severity with
    | .error =>
      ⟨[{ type := .security_risk, varName := v.key, message := rule.description,
          lineNumber := some v.lineNumber, suggestion := rule.suggestion }], [], []⟩
    | .warning =>
      ⟨[], [{ type := .security_risk, varName := v.key, message := rule.description,
              lineNumber := some v.lineNumber, suggestion := rule.suggestion }], []⟩
    | .info =>
      ⟨[], [], [{ varName := v.key, message := rule.description,
                  lineNumber := some v.lineNumber }]⟩
  else ⟨[], [], []⟩

/-- `[A-Za-z0-9+/]`, the base64 body class. -/
def isBase64Char (c : Char) : Bool := c.isAlphanum || c = '+' || c = '/'

/-- `/^[A-Za-z0-9+\/]{40,}={0,2}$/`: at least forty base64 characters and
at most two trailing `=` padding characters. -/
def base64SecretShape (s : String) : Bool :=
  let l := s.data
  let pad := l.reverse.takeWhile (fun c => c == '=')
  let body := (l.reverse.drop pad.length).reverse
  decide (pad.length ≤ 2) && decide (40 ≤ body.length) && body.all isBase64Char

/-- `[a-fA-F0-9]`. -/
def isHexChar (c : Char) : Bool :=
  c.isDigit || (decide ('a' ≤ c) && decide (c ≤ 'f')) ||
    (decide ('A' ≤ c) && decide (c ≤ 'F'))

/-- `/^[a-f0-9]{32,}$/i`. -/
def hexSecretShape (s : String) : Bool :=
  decide (32 ≤ s.data.length) && s.data.all isHexChar

/-- `/^[A-Za-z0-9_-]{32,}$/`. -/
def randomSecretShape (s : String) : Bool :=
  decide (32 ≤ s.data.length) && s.data.all (fun c => c.isAlphanum || c = '_' || c = '-')

/-- `secretPatterns.find(...)` of `checkHardcodedSecrets`: the first
matching shape's name, in source order. -/
def secretShapeName (s : String) : Option String :=
  if base64SecretShape s then some "Base64 encoded secret"
  else if hexSecretShape s then some "Hexadecimal secret"
  else if randomSecretShape s then some "Random string secret"
  else none

/-- The sensitive-key word list of `checkHardcodedSecrets`. -/
def sensitiveKeyWords : List String :=
  ["secret", "key", "token", "password", "pass", "pwd", "auth", "credential", "private"]

/-- `sensitiveKeys.some(k => key.includes(k))` on the lower-cased key. -/
def isSensitiveKeyFull (key : String) : Bool :=
  sensitiveKeyWords.any (fun w => containsSeq w.data (jsToLower key).data)

/-- The weak-secret word list of `isWeakSecret`. -/
def weakSecretWords : List String :=
  ["secret", "password", "admin", "root", "user", "test", "dev", "development",
   "123456", "qwerty", "letmein", "changeme", "default"]

/-- `SecurityAnalyzer.isWeakSecret`: exact lower-cased membership in the
weak word list, or fewer than eight characters. -/
def isWeakSecret (value : String) : Bool :=
  weakSecretWords.contains (jsToLower value) || decide (value.data.length < 8)

/-- `checkHardcodedSecrets`: for a sensitive key, a shape match pushes one
warning and a weak value pushes one error (returned as
`(warnings, errors)` in push order). -/
def checkHardcodedSecrets (v : EnvVariable) :
    List ValidationWarning × List ValidationError :=
  if isSensitiveKeyFull v.key then
    ((match secretShapeName v.value with
      | some nm =>
        [{ type := .security_risk, varName := v.key,
           message := "Potential " ++ nm ++ " detected in sensitive variable",
           lineNumber := some v.lineNumber,
           suggestion := some "Ensure this secret is not committed to version control" }]
      | none => []),
     if isWeakSecret v.value then
       [{ type := .security_risk, varName := v.key,
          message := "Weak or default secret detected",
          lineNumber := some v.lineNumber,
          suggestion := some "Use a strong, randomly generated secret" }]
     else [])
  else ([], [])

/-- A `weak_pattern` warning of `checkWeakPatterns`. -/
def weakPatternWarning (v : EnvVariable) (msg sugg : String) : ValidationWarning :=
  { type := .weak_pattern, varName := v.key, message := msg,
    lineNumber := some v.lineNumber, suggestion := some sugg }

/-- `checkWeakPatterns`: the development-indicator patterns in source
order (`localhost` case-insensitively, the loopback IP literally, the
dev/test/staging/debug words case-insensitively, and `/^(true|false)$/i`
as info), then the placeholder-in-sensitive-key warning. Returned as
`(warnings, info)`. -/
def checkWeakPatterns (v : EnvVariable) :
    List ValidationWarning × List ValidationInfo :=
  let lower := (jsToLower v.value).data
  let w1 := if containsSeq "localhost".data lower then
    [weakPatternWarning v "Localhost URL detected" "Ensure this is appropriate for production"]
  else []
  let w2 := if containsSeq "127.0.0.1".data v.value.data then
    [weakPatternWarning v "Localhost IP detected" "Ensure this is appropriate for production"]
  else []
  let w3 := if ["dev", "test", "staging", "debug"].any
      (fun p => containsSeq p.data lower) then
    [weakPatternWarning v "Development/test environment indicator"
      "Ensure this is appropriate for production"]
  else []
  let i1 := if jsToLower v.value == "true" || jsToLower v.value == "false" then
    [({ varName := v.key, message := "Boolean flag detected",
        lineNumber := some v.lineNumber } : ValidationInfo)]
  else []
  let sensitive := ["secret", "key", "token", "password", "auth"].any
    (fun w => containsSeq w.data (jsToLower v.key).data)
  let w4 := if sensitive && isPlaceholderValue v.value then
    [weakPatternWarning v "Placeholder value detected in sensitive variable"
      "Replace with actual secure value"]
  else []
  (w1 ++ w2 ++ w3 ++ w4, i1)

/-- `checkSensitiveDataExposure`: the four unanchored PII patterns (as
`JsPrims` predicates) in source order, then the URL-with-credentials
check. -/
def sensitiveDataWarnings (prims : JsPrims) (v : EnvVariable) :
    List ValidationWarning :=
  let mk := fun (msg : String) =>
    ({ type := .security_risk, varName := v.key,
       message := "Potential " ++ msg ++ " detected",
       lineNumber := some v.lineNumber,
       suggestion := some "Verify this sensitive data should be in environment variables" }
      : ValidationWarning)
  (if prims.creditCardLike v.value then [mk "Credit card number pattern"] else []) ++
  (if prims.ssnLike v.value then [mk "SSN pattern"] else []) ++
  (if prims.emailAnywhere v.value then [mk "Email address"] else []) ++
  (if prims.ipv4Like v.value then [mk "IP address"] else []) ++
  (if prims.urlWithCredentials v.value then
    [{ type := .security_risk, varName := v.key,
       message := "URL contains embedded credentials",
       lineNumber := some v.lineNumber,
       suggestion := some "Store credentials separately from URLs" }]
   else [])

/-- The four checks of `analyze` for one variable, in push order. -/
def analyzeVariable (prims : JsPrims) (rules : List SecurityRule)
    (v : EnvVariable) : SecFindings :=
  let r := (rules.map (fun rule => ruleFindingsFor rule v)).foldr mergeFindings ⟨[], [], []⟩
  let h := checkHardcodedSecrets v
  let w := checkWeakPatterns v
  let e := sensitiveDataWarnings prims v
  ⟨r.errors ++ h.2, r.warnings ++ h.1 ++ w.1 ++ e, r.info ++ w.2⟩

/-- `SecurityAnalyzer.analyze` over the concatenated rule list. -/
def analyze (prims : JsPrims) (rules : List SecurityRule)
    (vs : List EnvVariable) : SecFindings :=
  (vs.map (analyzeVariable prims rules)).foldr mergeFindings ⟨[], [], []⟩

end SecurityAnalyzer

/-! ## Orchestrator (`src/core/validator.ts`)

`EnvGuardValidator.validate` is modelled from the point where the target
file and the example file are parsed and the schema is loaded: file
reading, config discovery and mode resolution are external collaborators.
A thrown example-file parse failure is modelled as the `Except` error the
outer catch turns into an error result. -/

/-- The validation mode `determineValidationMode` resolves to. -/
inductive ValidationMode where
  | schema | example | both
deriving DecidableEq, Repr

namespace EnvGuardValidator

/-- One parse error converted by `createErrorResult`. -/
def convertParseError (e : ParseError) : ValidationError :=
  { type := .invalid_format, varName := "", message := e.message,
    lineNumber := some e.lineNumber }

/-- `EnvGuardValidator.createErrorResult`. -/
def createErrorResult (parseErrors : List ParseError) : ValidationResult :=
  { isValid := false, errors := parseErrors.map convertParseError,
    warnings := [], info := [],
    summary := ⟨0, 0, 0, 0, 0, 0⟩ }

/-- The dedup key `${type}-${variable}-${message}` for errors. -/
def errorTypeTag : ErrorType → String
  | .missing_required => "missing_required"
  | .invalid_format => "invalid_format"
  | .security_risk => "security_risk"
  | .custom => "custom"

/-- The dedup key tag for warnings. -/
def warningTypeTag : WarningType → String
  | .unused_variable => "unused_variable"
  | .weak_pattern => "weak_pattern"
  | .deprecated => "deprecated"
  | .custom => "custom"
  | .security_risk => "security_risk"

/-- Keep the first occurrence of each dedup key (`deduplicateErrors` /
`deduplicateWarnings`). -/
def dedupBy (key : α → String) : List α → List String → List α
  | [], _ => []
  | x :: xs, seen =>
    if seen.contains (key x) then dedupBy key xs seen
    else x :: dedupBy key xs (key x :: seen)

/-- `deduplicateErrors`. -/
def deduplicateErrors (errors : List ValidationError) : List ValidationError :=
  dedupBy (fun e => errorTypeTag e.type ++ "-" ++ e.varName ++ "-" ++ e.message) errors []

/-- `deduplicateWarnings`. -/
def deduplicateWarnings (warnings : List ValidationWarning) : List ValidationWarning :=
  dedupBy (fun w => warningTypeTag w.type ++ "-" ++ w.varName ++ "-" ++ w.message) warnings []

/-- `mergeSummaries`. -/
def mergeSummaries (s1 s2 : ValidationSummary) : ValidationSummary :=
  { totalVariables := max s1.totalVariables s2.totalVariables,
    requiredVariables := max s1.requiredVariables s2.requiredVariables,
    missingVariables := max s1.missingVariables s2.missingVariables,
    unusedVariables := max s1.unusedVariables s2.unusedVariables,
    securityIssues := s1.securityIssues + s2.securityIssues,
    validationTime := max s1.validationTime s2.validationTime }

/-- `validateWithExample`: a parse error in the example file throws
(`Failed to parse example file: ` and the first error's message). -/
def validateWithExample (prims : JsPrims) (exampleParsed : ParsedEnvFile)
    (ign : List (String → Bool)) (vs : List EnvVariable) :
    Except String ValidationResult :=
  if 0 < exampleParsed.parseErrors.length then
    .error ("Failed to parse example file: " ++
      (match exampleParsed.parseErrors with
       | e :: _ => e.message
       | [] => "undefined"))
  else
    .ok (ExampleValidator.validate prims exampleParsed.vars ign vs)

/-- `validateWithBoth`: concatenate, merge summaries, deduplicate. -/
def mergeBoth (s e : ValidationResult) : ValidationResult :=
  { isValid := s.isValid && e.isValid,
    errors := deduplicateErrors (s.errors ++ e.errors),
    warnings := deduplicateWarnings (s.warnings ++ e.warnings),
    info := s.info ++ e.info,
    summary := mergeSummaries s.summary e.summary }

/-- The mode dispatch of `validate` (its `switch`), as the result or the
thrown message. -/
def baseResult (prims : JsPrims) (schema : EnvSchema)
    (exampleParsed : ParsedEnvFile) (ign : List (String → Bool))
    (mode : ValidationMode) (vs : List EnvVariable) :
    Except String ValidationResult :=
  match mode with
  | .schema => .ok (SchemaValidator.validate prims schema vs)
  | .example => validateWithExample prims exampleParsed ign vs
  | .both =>
    match validateWithExample prims exampleParsed ign vs with
    | .error m => .error m
    | .ok er => .ok (mergeBoth (SchemaValidator.validate prims schema vs) er)

/-- `EnvGuardValidator.validate` after the target file is parsed: a
non-empty parse-error list short-circuits into `createErrorResult`; a
thrown mode failure is caught into a single `Validation failed: ` error
result; otherwise security findings are appended, the summary's
`securityIssues` updated, and `isValid` recomputed from the final error
list. -/
def validateParsed (prims : JsPrims) (schema : EnvSchema)
    (exampleParsed : ParsedEnvFile) (ign : List (String → Bool))
    (securityRules : List SecurityRule) (mode : ValidationMode)
    (parsedEnv : ParsedEnvFile) : ValidationResult :=
  if 0 < parsedEnv.parseErrors.length then
    createErrorResult parsedEnv.parseErrors
  else
    match baseResult prims schema exampleParsed ign mode parsedEnv.vars with
    | .error msg =>
      createErrorResult [⟨0, "Validation failed: " ++ msg, ""⟩]
    | .ok r =>
      let sec := SecurityAnalyzer.analyze prims securityRules parsedEnv.vars
      let errors := r.errors ++ sec.errors
      { isValid := errors.isEmpty, errors := errors,
        warnings := r.warnings ++ sec.warnings,
        info := r.info ++ sec.info,
        summary := { r.summary with securityIssues := sec.errors.length, validationTime := 0 } }

end EnvGuardValidator

/-! ## Helper lemmas -/

/-- `jsToLower` preserves length. -/
lemma jsToLower_data_length (s : String) : (jsToLower s).data.length = s.data.length := by
  simp [jsToLower]

/-- A base64 shape match needs at least 40 body characters. -/
lemma base64SecretShape_length {s : String}
    (h : SecurityAnalyzer.base64SecretShape s = true) : 32 ≤ s.data.length := by
  unfold SecurityAnalyzer.base64SecretShape at h
  simp only [Bool.and_eq_true, decide_eq_true_eq] at h
  obtain ⟨⟨-, hbody⟩, -⟩ := h
  simp only [List.length_reverse, List.length_drop] at hbody
  omega

/-- A hex shape match needs at least 32 characters. -/
lemma hexSecretShape_length {s : String}
    (h : SecurityAnalyzer.hexSecretShape s = true) : 32 ≤ s.data.length := by
  unfold SecurityAnalyzer.hexSecretShape at h
  simp only [Bool.and_eq_true, decide_eq_true_eq] at h
  exact h.1

/-- A random-token shape match needs at least 32 characters. -/
lemma randomSecretShape_length {s : String}
    (h : SecurityAnalyzer.randomSecretShape s = true) : 32 ≤ s.data.length := by
  unfold SecurityAnalyzer.randomSecretShape at h
  simp only [Bool.and_eq_true, decide_eq_true_eq] at h
  exact h.1

/-- Any matched secret shape forces at least 32 characters. -/
lemma secretShapeName_length {s : String} {nm : String}
    (h : SecurityAnalyzer.secretShapeName s = some nm) : 32 ≤ s.data.length := by
  unfold SecurityAnalyzer.secretShapeName at h
  split at h
  · exact base64SecretShape_length (by assumption)
  · split at h
    · exact hexSecretShape_length (by assumption)
    · split at h
      · exact randomSecretShape_length (by assumption)
      · exact absurd h (by simp)

/-- Every weak-secret word is shorter than 32 characters. -/
lemma weakSecretWords_short :
    ∀ w ∈ SecurityAnalyzer.weakSecretWords, w.data.length < 32 := by decide

/-- A weak secret is shorter than 32 characters. -/
lemma isWeakSecret_length {s : String}
    (h : SecurityAnalyzer.isWeakSecret s = true) : s.data.length < 32 := by
  unfold SecurityAnalyzer.isWeakSecret at h
  simp only [Bool.or_eq_true, decide_eq_true_eq] at h
  rcases h with h | h
  · have hmem : jsToLower s ∈ SecurityAnalyzer.weakSecretWords := List.elem_iff.mp h
    have := weakSecretWords_short _ hmem
    have hlen := jsToLower_data_length s
    omega
  · omega

/-- The shape-match warning and the weak-secret error of
`checkHardcodedSecrets` cannot both be produced for one variable: a shape
match needs at least 32 characters, a weak secret fewer than 32. -/
lemma checkHardcodedSecrets_exclusive (v : EnvVariable) :
    (SecurityAnalyzer.checkHardcodedSecrets v).1 = [] ∨
    (SecurityAnalyzer.checkHardcodedSecrets v).2 = [] := by
  unfold SecurityAnalyzer.checkHardcodedSecrets
  split
  · by_cases hw : SecurityAnalyzer.isWeakSecret v.value = true
    · left
      cases hshape : SecurityAnalyzer.secretShapeName v.value with
      | none => simp [hshape]
      | some nm =>
        have h1 := secretShapeName_length hshape
        have h2 := isWeakSecret_length hw
        omega
    · right
      simp [hw]
  · left
    rfl

/-! ## String-message helpers

Every finding message of the example validator has the shape
`"Variable '" ++ key ++ suffix` with a fixed suffix per check, so messages
from different checks never coincide and messages from the same check
determine the key. -/

/-- Two appends with fixed tails differ when neither tail is a suffix of
the other. -/
lemma append_ne_append_of_not_suffix {s t : List Char}
    (h1 : ¬ t <:+ s) (h2 : ¬ s <:+ t) (a b : List Char) : a ++ s ≠ b ++ t := by
  intro heq
  rcases Nat.le_total a.length b.length with hab | hba
  · apply h1
    have hdrop := congrArg (fun l => List.drop a.length l) heq
    simp only [List.drop_left] at hdrop
    rw [List.drop_append_eq_append_drop] at hdrop
    have hz : a.length - b.length = 0 := Nat.sub_eq_zero_of_le hab
    rw [hz, List.drop_zero] at hdrop
    exact ⟨b.drop a.length, hdrop.symm⟩
  · apply h2
    have hdrop := congrArg (fun l => List.drop b.length l) heq.symm
    simp only [List.drop_left] at hdrop
    rw [List.drop_append_eq_append_drop] at hdrop
    have hz : b.length - a.length = 0 := Nat.sub_eq_zero_of_le hba
    rw [hz, List.drop_zero] at hdrop
    exact ⟨a.drop b.length, hdrop.symm⟩

/-- Keyed messages with distinct fixed suffixes never coincide. -/
lemma keyed_message_ne {S T : String}
    (h1 : ¬ T.data <:+ S.data) (h2 : ¬ S.data <:+ T.data) (k K : String) :
    "Variable '" ++ k ++ S ≠ "Variable '" ++ K ++ T := by
  intro heq
  have hdata : ("Variable '".data ++ k.data) ++ S.data =
      ("Variable '".data ++ K.data) ++ T.data := by
    have := congrArg String.data heq
    simpa [String.data_append, List.append_assoc] using this
  exact append_ne_append_of_not_suffix h1 h2 _ _ hdata

/-- Keyed messages with the same fixed suffix determine the key. -/
lemma keyed_message_eq_iff (S k K : String) :
    ("Variable '" ++ k ++ S = "Variable '" ++ K ++ S) ↔ k = K := by
  constructor
  · intro heq
    have hdata : ("Variable '".data ++ k.data) ++ S.data =
        ("Variable '".data ++ K.data) ++ S.data := by
      have := congrArg String.data heq
      simpa [String.data_append, List.append_assoc] using this
    have h1 : "Variable '".data ++ k.data = "Variable '".data ++ K.data :=
      List.append_cancel_right hdata
    have h2 : k.data = K.data := List.append_cancel_left h1
    cases k
    cases K
    exact congrArg String.mk h2
  · intro h
    rw [h]

/-- Every key produced by `dedupFirstAux` avoids the seen accumulator. -/
lemma dedupFirstAux_not_seen :
    ∀ (l seen : List String) (k : String), k ∈ dedupFirstAux seen l → k ∉ seen := by
  intro l
  induction l with
  | nil => intro seen k hk; simp [dedupFirstAux] at hk
  | cons x xs ih =>
    intro seen k hk
    unfold dedupFirstAux at hk
    split at hk
    · exact ih seen k hk
    · rcases List.mem_cons.mp hk with rfl | hk2
      · next hcon =>
        intro hmem
        exact hcon (List.elem_iff.mpr hmem)
      · intro hmem
        exact ih (x :: seen) k hk2 (List.mem_cons_of_mem x hmem)

/-- `dedupFirstAux` lists distinct keys. -/
lemma dedupFirstAux_nodup : ∀ (l seen : List String), (dedupFirstAux seen l).Nodup := by
  intro l
  induction l with
  | nil => intro seen; simp [dedupFirstAux]
  | cons x xs ih =>
    intro seen
    unfold dedupFirstAux
    split
    · exact ih seen
    · refine List.nodup_cons.mpr ⟨?_, ih (x :: seen)⟩
      intro hmem
      exact dedupFirstAux_not_seen xs (x :: seen) x hmem (List.mem_cons_self x seen)

/-- A key of the list not yet seen appears in `dedupFirstAux`. -/
lemma mem_dedupFirstAux :
    ∀ (l seen : List String) (k : String), k ∈ l → k ∉ seen → k ∈ dedupFirstAux seen l := by
  intro l
  induction l with
  | nil => intro seen k hk; simp at hk
  | cons x xs ih =>
    intro seen k hk hseen
    unfold dedupFirstAux
    split
    · next hcon =>
      rcases List.mem_cons.mp hk with rfl | hk2
      · exact absurd (List.elem_iff.mp hcon) hseen
      · exact ih seen k hk2 hseen
    · rcases List.mem_cons.mp hk with rfl | hk2
      · exact List.mem_cons_self _ _
      · by_cases hxk : k = x
        · exact hxk ▸ List.mem_cons_self _ _
        · refine List.mem_cons_of_mem _ (ih (x :: seen) k hk2 ?_)
          intro hmem
          rcases List.mem_cons.mp hmem with h | h
          · exact hxk h
          · exact hseen h

/-- `dedupFirst` lists distinct keys. -/
lemma dedupFirst_nodup (l : List String) : (dedupFirst l).Nodup :=
  dedupFirstAux_nodup l []

/-- Every key of the list appears in `dedupFirst`. -/
lemma mem_dedupFirst {l : List String} {k : String} (hk : k ∈ l) : k ∈ dedupFirst l :=
  mem_dedupFirstAux l [] k hk (List.not_mem_nil k)

/-- Filtering a keyed `filterMap` over keys not containing `K` yields
nothing, when the predicate pins the key to `K`. -/
lemma filter_filterMap_of_not_mem {α : Type} (g : String → Option α) (p : α → Bool)
    (K : String) (hg : ∀ k a, g k = some a → p a = true → k = K) :
    ∀ ks : List String, K ∉ ks → ((ks.filterMap g).filter p) = [] := by
  intro ks hK
  refine List.filter_eq_nil_iff.mpr ?_
  intro a ha
  obtain ⟨k, hk, hka⟩ := List.mem_filterMap.mp ha
  intro hpa
  exact hK ((hg k a hka hpa) ▸ hk)

/-- Over distinct keys, at most one element of a keyed `filterMap`
satisfies a predicate that pins the key to `K`. -/
lemma filter_filterMap_length_le_one {α : Type} (g : String → Option α) (p : α → Bool)
    (K : String) (hg : ∀ k a, g k = some a → p a = true → k = K) :
    ∀ ks : List String, ks.Nodup → ((ks.filterMap g).filter p).length ≤ 1 := by
  intro ks
  induction ks with
  | nil => intro _; simp
  | cons k ks ih =>
    intro hnodup
    have hn := List.nodup_cons.mp hnodup
    rw [List.filterMap_cons]
    cases hgk : g k with
    | none => exact ih hn.2
    | some a =>
      rw [List.filter_cons]
      split
      · next hpa =>
        have hkK : k = K := hg k a hgk hpa
        have : ((ks.filterMap g).filter p) = [] :=
          filter_filterMap_of_not_mem g p K hg ks (hkK ▸ hn.1)
        simp [this]
      · exact ih hn.2

/-- Over distinct keys containing `K`, a keyed `filterMap` filtered by a
predicate that pins the key to `K` is exactly `K`'s own contribution. -/
lemma filter_filterMap_eq_singleton {α : Type} (g : String → Option α) (p : α → Bool)
    (K : String) (a : α) (hg : ∀ k b, g k = some b → p b = true → k = K)
    (ha : g K = some a) (hpa : p a = true) :
    ∀ ks : List String, ks.Nodup → K ∈ ks → (ks.filterMap g).filter p = [a] := by
  intro ks
  induction ks with
  | nil => intro _ h; simp at h
  | cons k ks ih =>
    intro hnodup hmem
    have hn := List.nodup_cons.mp hnodup
    rw [List.filterMap_cons]
    rcases List.mem_cons.mp hmem with rfl | htail
    · rw [ha, List.filter_cons, if_pos hpa]
      have : ((ks.filterMap g).filter p) = [] :=
        filter_filterMap_of_not_mem g p K hg ks hn.1
      rw [this]
    · cases hgk : g k with
      | none => exact ih hn.2 htail
      | some b =>
        rw [List.filter_cons]
        split
        · next hpb =>
          exact absurd ((hg k b hgk hpb) ▸ htail) hn.1
        · exact ih hn.2 htail

/-! ## Claim theorems -/

/-- C1. Every `ValidationResult` produced by `SchemaValidator.validate`,
`ExampleValidator.validate`, and the orchestrator's `validateParsed`
(after security findings are merged in, after the both-mode merge, and on
every short-circuit path) has `isValid = true` exactly when its error
list is empty. -/
theorem isValid_iff_errors_empty :
    (∀ (prims : JsPrims) (schema : EnvSchema) (vs : List EnvVariable),
      (SchemaValidator.validate prims schema vs).isValid = true ↔
        (SchemaValidator.validate prims schema vs).errors = []) ∧
    (∀ (prims : JsPrims) (exVars : List EnvVariable) (ign : List (String → Bool))
       (vs : List EnvVariable),
      (ExampleValidator.validate prims exVars ign vs).isValid = true ↔
        (ExampleValidator.validate prims exVars ign vs).errors = []) ∧
    (∀ (prims : JsPrims) (schema : EnvSchema) (exampleParsed : ParsedEnvFile)
       (ign : List (String → Bool)) (securityRules : List SecurityRule)
       (mode : ValidationMode) (parsedEnv : ParsedEnvFile),
      (EnvGuardValidator.validateParsed prims schema exampleParsed ign securityRules
          mode parsedEnv).isValid = true ↔
        (EnvGuardValidator.validateParsed prims schema exampleParsed ign securityRules
          mode parsedEnv).errors = []) := by
  refine ⟨?_, ?_, ?_⟩
  · intro prims schema vs
    simp [SchemaValidator.validate, List.isEmpty_iff]
  · intro prims exVars ign vs
    simp [ExampleValidator.validate, List.isEmpty_iff]
  · intro prims schema exampleParsed ign securityRules mode parsedEnv
    unfold EnvGuardValidator.validateParsed
    split
    · next h =>
      have hne : parsedEnv.parseErrors ≠ [] := by
        intro hc
        simp [hc] at h
      simp [EnvGuardValidator.createErrorResult, hne]
    · split
      · simp [EnvGuardValidator.createErrorResult, EnvGuardValidator.convertParseError]
      · simp [List.isEmpty_iff]

/-- C2. When the target file's parse yields at least one parse error, the
orchestrator abandons validation: the result is invalid, carries exactly
one `invalid_format` error per parse error (with an empty variable name),
has empty warning and info lists and an all-zero summary, and no schema,
example or security findings (those passes are never reached). -/
theorem orchestrator_parse_errors_fail_fast
    (prims : JsPrims) (schema : EnvSchema) (exampleParsed : ParsedEnvFile)
    (ign : List (String → Bool)) (securityRules : List SecurityRule)
    (mode : ValidationMode) (parsedEnv : ParsedEnvFile)
    (h : parsedEnv.parseErrors ≠ []) :
    (EnvGuardValidator.validateParsed prims schema exampleParsed ign securityRules
        mode parsedEnv).isValid = false ∧
    (EnvGuardValidator.validateParsed prims schema exampleParsed ign securityRules
        mode parsedEnv).errors =
      parsedEnv.parseErrors.map EnvGuardValidator.convertParseError ∧
    (EnvGuardValidator.validateParsed prims schema exampleParsed ign securityRules
        mode parsedEnv).warnings = [] ∧
    (EnvGuardValidator.validateParsed prims schema exampleParsed ign securityRules
        mode parsedEnv).info = [] ∧
    (EnvGuardValidator.validateParsed prims schema exampleParsed ign securityRules
        mode parsedEnv).summary = ⟨0, 0, 0, 0, 0, 0⟩ := by
  have hlen : 0 < parsedEnv.parseErrors.length := List.length_pos.mpr h
  unfold EnvGuardValidator.validateParsed
  rw [if_pos hlen]
  exact ⟨rfl, rfl, rfl, rfl, rfl⟩

/-- Witness for C2 at a concrete parse error. -/
theorem orchestrator_parse_errors_fail_fast_witness :
    (EnvGuardValidator.validateParsed trivPrims ⟨[], [], []⟩ ⟨[], [], [], []⟩ [] []
        ValidationMode.example
        ⟨[], [], [], [⟨2, "Invalid variable assignment format", "BAD LINE"⟩]⟩).isValid = false ∧
    (EnvGuardValidator.validateParsed trivPrims ⟨[], [], []⟩ ⟨[], [], [], []⟩ [] []
        ValidationMode.example
        ⟨[], [], [], [⟨2, "Invalid variable assignment format", "BAD LINE"⟩]⟩).errors =
      ([⟨2, "Invalid variable assignment format", "BAD LINE"⟩] : List ParseError).map
        EnvGuardValidator.convertParseError ∧
    (EnvGuardValidator.validateParsed trivPrims ⟨[], [], []⟩ ⟨[], [], [], []⟩ [] []
        ValidationMode.example
        ⟨[], [], [], [⟨2, "Invalid variable assignment format", "BAD LINE"⟩]⟩).warnings = [] ∧
    (EnvGuardValidator.validateParsed trivPrims ⟨[], [], []⟩ ⟨[], [], [], []⟩ [] []
        ValidationMode.example
        ⟨[], [], [], [⟨2, "Invalid variable assignment format", "BAD LINE"⟩]⟩).info = [] ∧
    (EnvGuardValidator.validateParsed trivPrims ⟨[], [], []⟩ ⟨[], [], [], []⟩ [] []
        ValidationMode.example
        ⟨[], [], [], [⟨2, "Invalid variable assignment format", "BAD LINE"⟩]⟩).summary =
      ⟨0, 0, 0, 0, 0, 0⟩ :=
  orchestrator_parse_errors_fail_fast trivPrims ⟨[], [], []⟩ ⟨[], [], [], []⟩ [] []
    ValidationMode.example
    ⟨[], [], [], [⟨2, "Invalid variable assignment format", "BAD LINE"⟩]⟩ (by decide)

/-- C7 counterexample. The two placeholder predicates disagree: a value
equal to `todo` is a placeholder for the security analyzer but not for
the example validator. -/
theorem placeholder_predicates_disagree_on_todo :
    ExampleValidator.isPlaceholderValue "todo" = false ∧
    SecurityAnalyzer.isPlaceholderValue "todo" = true ∧
    ExampleValidator.isPlaceholderValue "fixme" = false ∧
    SecurityAnalyzer.isPlaceholderValue "fixme" = true := by
  exact ⟨by decide, by decide, by decide, by decide⟩

/-- C7 amended. The security analyzer's placeholder predicate extends the
example validator's by exactly the `todo` and `fixme` patterns: the two
agree on every value whose trimmed form does not match `/^todo$/i` or
`/^fixme$/i`, and only the security analyzer accepts those. -/
theorem security_placeholder_extends_example_placeholder :
    ∀ s : String,
      SecurityAnalyzer.isPlaceholderValue s =
        (ExampleValidator.isPlaceholderValue s ||
          ciEquals "todo".data (trimChars s.data) ||
          ciEquals "fixme".data (trimChars s.data)) := by
  intro s
  simp [SecurityAnalyzer.isPlaceholderValue, ExampleValidator.isPlaceholderValue,
    Bool.or_assoc]

/-- C8 counterexample (the claim's negation). No variable makes one
`SecurityAnalyzer.analyze` call emit both the shape-match warning and the
weak-or-default-secret error of `checkHardcodedSecrets`. -/
theorem hardcoded_shape_and_weak_never_together :
    (∃ v : EnvVariable,
      (SecurityAnalyzer.checkHardcodedSecrets v).1 ≠ [] ∧
      (SecurityAnalyzer.checkHardcodedSecrets v).2 ≠ []) ↔ False := by
  constructor
  · rintro ⟨v, h1, h2⟩
    rcases checkHardcodedSecrets_exclusive v with h | h
    · exact h1 h
    · exact h2 h
  · intro h
    exact h.elim

/-- C8 amended. The two hardcoded-secret findings are mutually exclusive:
for every variable, `checkHardcodedSecrets` emits the shape-match warning
or the weak-secret error, never both (a shape match requires at least 32
characters while a weak secret has fewer than 32). -/
theorem hardcoded_shape_warning_excludes_weak_error :
    ∀ v : EnvVariable,
      (SecurityAnalyzer.checkHardcodedSecrets v).1 = [] ∨
      (SecurityAnalyzer.checkHardcodedSecrets v).2 = [] :=
  checkHardcodedSecrets_exclusive

/-- C9. `ExampleValidator.validate`: the summary's `unusedVariables`
counts exactly the warnings tagged `unused_variable`, and the empty-value
warnings carry that tag, so one empty variable with no unused keys yields
`unusedVariables = 1`. -/
theorem example_summary_unused_counts_unused_tag :
    (∀ (prims : JsPrims) (exVars : List EnvVariable) (ign : List (String → Bool))
       (vs : List EnvVariable),
      (ExampleValidator.validate prims exVars ign vs).summary.unusedVariables =
        ((ExampleValidator.validate prims exVars ign vs).warnings.filter
          (fun w => w.type == WarningType.unused_variable)).length) ∧
    ((ExampleValidator.validate trivPrims [⟨"A", "hello", 1, false, none⟩] []
        [⟨"A", "", 1, false, none⟩]).warnings =
      [⟨.unused_variable, "A", "Variable 'A' is empty but has a value in example",
        some 1, some "Consider setting a value. Example: hello"⟩] ∧
     (ExampleValidator.validate trivPrims [⟨"A", "hello", 1, false, none⟩] []
        [⟨"A", "", 1, false, none⟩]).errors = [] ∧
     (ExampleValidator.validate trivPrims [⟨"A", "hello", 1, false, none⟩] []
        [⟨"A", "", 1, false, none⟩]).summary.unusedVariables = 1) := by
  refine ⟨fun prims exVars ign vs => rfl, by decide, by decide, by decide⟩

/-- Filtering a per-variable finding stream by a predicate that is false
for every variable with a different key reduces, over a list with
distinct keys, to the one contributing variable's own findings. -/
lemma filter_flatMap_of_unique {α : Type} (f : EnvVariable → List α) (p : α → Bool) :
    ∀ (vs : List EnvVariable) (v : EnvVariable),
      (vs.map (fun x => x.key)).Nodup → v ∈ vs →
      (∀ w ∈ vs, w.key ≠ v.key → ∀ a ∈ f w, p a = false) →
      (vs.flatMap f).filter p = (f v).filter p := by
  intro vs
  induction vs with
  | nil =>
    intro v _ hv
    exact absurd hv (List.not_mem_nil v)
  | cons w ws ih =>
    intro v hnodup hv hother
    have hnodup' : (w.key ∉ ws.map (fun x => x.key)) ∧
        (ws.map (fun x => x.key)).Nodup := by
      rw [List.map_cons] at hnodup
      exact List.nodup_cons.mp hnodup
    rw [List.flatMap_cons, List.filter_append]
    rcases List.mem_cons.mp hv with rfl | hvtail
    · have htail : (ws.flatMap f).filter p = [] := by
        refine List.filter_eq_nil_iff.mpr ?_
        intro a ha
        obtain ⟨u, hu, hau⟩ := List.mem_flatMap.mp ha
        have hkey : u.key ≠ v.key := by
          intro hk
          exact hnodup'.1 (hk ▸ List.mem_map_of_mem (fun x => x.key) hu)
        simp [hother u (List.mem_cons_of_mem _ hu) hkey a hau]
      rw [htail, List.append_nil]
    · have hkey : w.key ≠ v.key := by
        intro hk
        exact hnodup'.1 (hk ▸ List.mem_map_of_mem (fun x => x.key) hvtail)
      have hw : (f w).filter p = [] := by
        refine List.filter_eq_nil_iff.mpr ?_
        intro a ha
        simp [hother w (List.mem_cons_self w ws) hkey a ha]
      rw [hw, List.nil_append]
      exact ih v hnodup'.2 hvtail (fun u hu => hother u (List.mem_cons_of_mem _ hu))

/-- Every required-variable error carries the `missing_required` tag. -/
lemma requiredErrors_type (schema : EnvSchema) (vs : List EnvVariable) :
    ∀ e ∈ SchemaValidator.requiredErrors schema vs, e.type = .missing_required := by
  intro e he
  obtain ⟨k, _, hke⟩ := List.mem_filterMap.mp he
  revert hke
  cases schemaLookup schema k with
  | none => simp
  | some sch =>
    dsimp only
    split
    · intro hke
      cases hke
      rfl
    · simp

/-- Every custom-rule error carries the `custom` tag. -/
lemma customErrors_type (schema : EnvSchema) (vs : List EnvVariable) :
    ∀ e ∈ SchemaValidator.customErrors schema vs, e.type = .custom := by
  intro e he
  obtain ⟨rule, _, he2⟩ := List.mem_flatMap.mp he
  obtain ⟨w, _, he3⟩ := List.mem_flatMap.mp he2
  revert he3
  unfold SchemaValidator.customTriple
  cases rule.severity with
  | error =>
    dsimp only
    intro he3
    simp only [List.mem_map] at he3
    obtain ⟨u, -, rfl⟩ := he3
    rfl
  | warning => simp
  | info => simp

/-- Every error of the per-variable checks names that variable. -/
lemma perVariable_fst_varName (prims : JsPrims) (schema : EnvSchema) (w : EnvVariable) :
    ∀ a ∈ (SchemaValidator.perVariable prims schema w).1, a.varName = w.key := by
  intro a ha
  revert ha
  unfold SchemaValidator.perVariable
  cases hsch : schemaLookup schema w.key with
  | none => simp
  | some sch =>
    dsimp only
    split
    · intro ha
      rcases List.mem_singleton.mp ha with rfl
      rfl
    · intro ha
      rcases List.mem_append.mp ha with h | h
      · revert h
        unfold SchemaValidator.typeErrors
        cases sch.type with
        | none => simp
        | some ty =>
          dsimp only
          split
          · simp
          · split
            · simp
            · intro h
              rcases List.mem_singleton.mp h with rfl
              rfl
      · revert h
        unfold SchemaValidator.patternErrors
        cases sch.pattern with
        | none => simp
        | some pt =>
          dsimp only
          split
          · simp
          · split
            · simp
            · intro h
              rcases List.mem_singleton.mp h with rfl
              rfl

/-- C5. For an observed variable with a schema entry that does not allow
empty and a value trimming to the empty string, `SchemaValidator.validate`
emits exactly one `invalid_format` error for that variable, and it is the
cannot-be-empty finding — no type-check or pattern-check finding is
emitted for it (those are skipped by the `continue`). -/
theorem schema_empty_value_single_error
    (prims : JsPrims) (schema : EnvSchema) (vs : List EnvVariable)
    (v : EnvVariable) (sch : VariableSchema)
    (hnodup : (vs.map (fun x => x.key)).Nodup)
    (hv : v ∈ vs)
    (hsch : schemaLookup schema v.key = some sch)
    (hallow : sch.allowEmpty = false)
    (hempty : jsTrim v.value = "") :
    ((SchemaValidator.validate prims schema vs).errors.filter
        (fun e => e.type == ErrorType.invalid_format && e.varName == v.key)) =
      [SchemaValidator.emptyValueError v sch] := by
  have hreq : (SchemaValidator.requiredErrors schema vs).filter
      (fun e => e.type == ErrorType.invalid_format && e.varName == v.key) = [] := by
    refine List.filter_eq_nil_iff.mpr ?_
    intro e he
    simp [requiredErrors_type schema vs e he]
  have hcust : (SchemaValidator.customErrors schema vs).filter
      (fun e => e.type == ErrorType.invalid_format && e.varName == v.key) = [] := by
    refine List.filter_eq_nil_iff.mpr ?_
    intro e he
    simp [customErrors_type schema vs e he]
  have hmid : ((vs.flatMap fun w => (SchemaValidator.perVariable prims schema w).1).filter
      (fun e => e.type == ErrorType.invalid_format && e.varName == v.key)) =
      ((SchemaValidator.perVariable prims schema v).1.filter
        (fun e => e.type == ErrorType.invalid_format && e.varName == v.key)) := by
    refine filter_flatMap_of_unique _ _ vs v hnodup hv ?_
    intro w _ hkey a ha
    have := perVariable_fst_varName prims schema w a ha
    simp [this, hkey]
  have hv1 : (SchemaValidator.perVariable prims schema v).1 =
      [SchemaValidator.emptyValueError v sch] := by
    unfold SchemaValidator.perVariable
    rw [hsch]
    dsimp only
    rw [if_pos]
    simp [hallow, hempty]
  show ((SchemaValidator.requiredErrors schema vs ++
      (vs.flatMap fun w => (SchemaValidator.perVariable prims schema w).1) ++
      SchemaValidator.customErrors schema vs).filter _) = _
  rw [List.filter_append, List.filter_append, hreq, hcust, hmid, hv1]
  simp [SchemaValidator.emptyValueError]

/-- Witness for C5: a whitespace-only value under a schema entry with
`allowEmpty` unset yields exactly the cannot-be-empty error. -/
theorem schema_empty_value_single_error_witness :
    ((SchemaValidator.validate trivPrims ⟨[("A", {})], [], []⟩
        [⟨"A", " ", 1, false, none⟩]).errors.filter
        (fun e => e.type == ErrorType.invalid_format && e.varName == "A")) =
      [SchemaValidator.emptyValueError ⟨"A", " ", 1, false, none⟩ {}] :=
  schema_empty_value_single_error trivPrims ⟨[("A", {})], [], []⟩
    [⟨"A", " ", 1, false, none⟩] ⟨"A", " ", 1, false, none⟩ {}
    (by decide) (by decide) rfl rfl (by decide)

/-- C6 counterexample. With a placeholder example value but an empty
observed value, `validateValueFormats` skips the record and no Info note
is emitted. -/
theorem example_placeholder_info_skipped_when_empty :
    ExampleValidator.isPlaceholderValue "<your-api-key>" = true ∧
    (ExampleValidator.validate trivPrims
        [⟨"API_KEY", "<your-api-key>", 1, false, none⟩] []
        [⟨"API_KEY", "", 1, false, none⟩]).info = [] ∧
    (ExampleValidator.validate trivPrims
        [⟨"API_KEY", "<your-api-key>", 1, false, none⟩] []
        [⟨"API_KEY", "   ", 1, false, none⟩]).info = [] := by
  exact ⟨by decide, by decide, by decide⟩

/-- C6 amended. For a variable present in both sets whose reference value
is a placeholder, `ExampleValidator.validate` emits the Info note exactly
when the observed value is non-empty after trimming; an empty or
whitespace-only observed value is skipped and gets no Info. -/
theorem example_placeholder_info_nonempty_only
    (prims : JsPrims) (exVars : List EnvVariable) (ign : List (String → Bool))
    (vs : List EnvVariable) (v ev : EnvVariable)
    (hnodup : (vs.map (fun x => x.key)).Nodup)
    (hv : v ∈ vs)
    (hex : jsMapGet exVars v.key = some ev)
    (hph : ExampleValidator.isPlaceholderValue ev.value = true) :
    ((ExampleValidator.validate prims exVars ign vs).info.filter
        (fun i => i.varName == v.key)) =
      if jsTrim v.value = "" then []
      else [⟨v.key, "Variable '" ++ v.key ++ "' uses placeholder in example: " ++ ev.value,
            some v.lineNumber⟩] := by
  show ((ExampleValidator.formatInfos exVars vs).filter (fun i => i.varName == v.key)) = _
  unfold ExampleValidator.formatInfos
  rw [List.filterMap_eq_flatMap_toList]
  rw [filter_flatMap_of_unique _ _ vs v hnodup hv ?hother]
  case hother =>
    intro w _ hkey a ha
    revert ha
    cases hgw : jsMapGet exVars w.key with
    | none => simp
    | some ew =>
      dsimp only
      split
      · simp
      · split
        · intro ha
          simp only [Option.toList, List.mem_singleton] at ha
          subst ha
          simp [hkey]
        · simp
  rw [hex]
  by_cases htrim : jsTrim v.value = ""
  · simp [htrim]
  · simp [htrim, hph]

/-- Witness for C6 amended at a concrete non-empty observed value. -/
theorem example_placeholder_info_nonempty_only_witness :
    ((ExampleValidator.validate trivPrims
        [⟨"API_KEY", "<your-key>", 1, false, none⟩] []
        [⟨"API_KEY", "abc", 1, false, none⟩]).info.filter
        (fun i => i.varName == "API_KEY")) =
      (if jsTrim "abc" = "" then []
       else [⟨"API_KEY",
              "Variable '" ++ "API_KEY" ++ "' uses placeholder in example: " ++ "<your-key>",
              some 1⟩]) :=
  example_placeholder_info_nonempty_only trivPrims
    [⟨"API_KEY", "<your-key>", 1, false, none⟩] []
    [⟨"API_KEY", "abc", 1, false, none⟩]
    ⟨"API_KEY", "abc", 1, false, none⟩ ⟨"API_KEY", "<your-key>", 1, false, none⟩
    (by decide) (by decide) rfl (by decide)

/-- Every missing-variable error names a key absent from the observed map. -/
lemma missingErrors_has_false (ign : List (String → Bool)) (exVars vs : List EnvVariable) :
    ∀ e ∈ ExampleValidator.missingErrors ign exVars vs, jsMapHas vs e.varName = false := by
  intro e he
  obtain ⟨k, -, hk⟩ := List.mem_filterMap.mp he
  split at hk
  · next hcond =>
    split at hk
    · cases hk
      simp only [Bool.and_eq_true, Bool.not_eq_true'] at hcond
      exact hcond.1
    · simp at hk
  · simp at hk

/-- Every empty-value warning's message has the empty-value suffix. -/
lemma emptyWarns_message (exVars vs : List EnvVariable) :
    ∀ w ∈ ExampleValidator.emptyWarns exVars vs,
      ∃ k, w.message = "Variable '" ++ k ++ "' is empty but has a value in example" := by
  intro w hw
  obtain ⟨v, -, hv⟩ := List.mem_filterMap.mp hw
  revert hv
  cases jsMapGet exVars v.key with
  | none => simp
  | some ev =>
    dsimp only
    split
    · intro hv
      cases hv
      exact ⟨v.key, rfl⟩
    · simp

/-- A format mismatch carries one of the four shape messages. -/
lemma detectFormatMismatch_message (prims : JsPrims) (v ev : EnvVariable)
    (ms : String × String) (h : ExampleValidator.detectFormatMismatch prims v ev = some ms) :
    ms.1 = "Variable '" ++ v.key ++ "' should be a URL based on example" ∨
    ms.1 = "Variable '" ++ v.key ++ "' should be a number based on example" ∨
    ms.1 = "Variable '" ++ v.key ++ "' should be a boolean based on example" ∨
    ms.1 = "Variable '" ++ v.key ++ "' should be an email based on example" := by
  unfold ExampleValidator.detectFormatMismatch at h
  split at h
  · simp at h
  · split at h
    · cases h
      exact Or.inl rfl
    · split at h
      · cases h
        exact Or.inr (Or.inl rfl)
      · split at h
        · cases h
          exact Or.inr (Or.inr (Or.inl rfl))
        · split at h
          · cases h
            exact Or.inr (Or.inr (Or.inr rfl))
          · simp at h

/-- Every format-mismatch warning's message has one of the four shape
suffixes. -/
lemma formatWarns_message (prims : JsPrims) (exVars vs : List EnvVariable) :
    ∀ w ∈ ExampleValidator.formatWarns prims exVars vs,
      ∃ k, w.message = "Variable '" ++ k ++ "' should be a URL based on example" ∨
        w.message = "Variable '" ++ k ++ "' should be a number based on example" ∨
        w.message = "Variable '" ++ k ++ "' should be a boolean based on example" ∨
        w.message = "Variable '" ++ k ++ "' should be an email based on example" := by
  intro w hw
  obtain ⟨v, -, hv⟩ := List.mem_filterMap.mp hw
  revert hv
  cases hget : jsMapGet exVars v.key with
  | none => simp
  | some ev =>
    dsimp only
    split
    · simp
    · intro hv
      obtain ⟨ms, hms, hw2⟩ := Option.map_eq_some'.mp hv
      refine ⟨v.key, ?_⟩
      have hmsg : w.message = ms.1 := by
        cases hw2
        rfl
      rw [hmsg]
      exact detectFormatMismatch_message prims v ev ms hms

/-- C10. The parser keeps both records of a duplicated key in order, and
`ExampleValidator.validate` treats a duplicated key as present for the
missing check while its unused check, iterating the distinct map keys,
emits at most one unused warning for the key — exactly one, carrying the
last record's line number (the later record wins the map entry), when the
key is neither in the example set nor ignored. -/
theorem duplicate_key_parser_and_unused_check
    (prims : JsPrims) (exVars : List EnvVariable) (ign : List (String → Bool))
    (vs : List EnvVariable) (K : String)
    (hdup : 2 ≤ (vs.filter (fun x => x.key == K)).length) :
    (EnvParser.parseContent "A=1\nA=2").vars =
      [⟨"A", "1", 1, false, none⟩, ⟨"A", "2", 2, false, none⟩] ∧
    ((ExampleValidator.validate prims exVars ign vs).errors.filter
        (fun e => e.varName == K)) = [] ∧
    ((ExampleValidator.validate prims exVars ign vs).warnings.filter
        (fun w => w.message == "Variable '" ++ K ++ "' is not present in .env.example")).length ≤ 1 ∧
    (∀ lv, jsMapGet vs K = some lv → jsMapHas exVars K = false →
      shouldIgnore ign K = false →
      ((ExampleValidator.validate prims exVars ign vs).warnings.filter
          (fun w => w.message == "Variable '" ++ K ++ "' is not present in .env.example")) =
        [⟨.unused_variable, K, "Variable '" ++ K ++ "' is not present in .env.example",
          some lv.lineNumber,
          some "Add this variable to .env.example or remove it if not needed"⟩]) := by
  have hne : vs.filter (fun x => x.key == K) ≠ [] := by
    intro hc
    rw [hc] at hdup
    simp at hdup
  have hK_mem : K ∈ vs.map (fun x => x.key) := by
    obtain ⟨x, hx⟩ := List.exists_mem_of_ne_nil _ hne
    have hx2 := List.mem_filter.mp hx
    have hxk : x.key = K := by simpa using hx2.2
    exact hxk ▸ List.mem_map_of_mem (fun x => x.key) hx2.1
  have hhas : jsMapHas vs K = true := by
    obtain ⟨x, hx, hxk⟩ := List.mem_map.mp hK_mem
    unfold jsMapHas
    rw [List.any_eq_true]
    exact ⟨x, hx, by simp [hxk]⟩
  have hg : ∀ (k : String) (w : ValidationWarning),
      (if !jsMapHas exVars k && !shouldIgnore ign k then
        match jsMapGet vs k with
        | some v =>
          some { type := .unused_variable, varName := k,
                 message := "Variable '" ++ k ++ "' is not present in .env.example",
                 lineNumber := some v.lineNumber,
                 suggestion := some "Add this variable to .env.example or remove it if not needed" }
        | none => none
      else none) = some w →
      (w.message == "Variable '" ++ K ++ "' is not present in .env.example") = true →
      k = K := by
    intro k w hk hp
    split at hk
    · split at hk
      · cases hk
        simp only [beq_iff_eq] at hp
        exact (keyed_message_eq_iff _ k K).mp hp
      · simp at hk
    · simp at hk
  have hB : (ExampleValidator.emptyWarns exVars vs).filter
      (fun w => w.message == "Variable '" ++ K ++ "' is not present in .env.example") = [] := by
    refine List.filter_eq_nil_iff.mpr ?_
    intro w hw
    obtain ⟨k, hmsg⟩ := emptyWarns_message exVars vs w hw
    simp only [hmsg, Bool.not_eq_true]
    exact beq_eq_false_iff_ne.mpr (keyed_message_ne (by decide) (by decide) k K)
  have hC : (ExampleValidator.formatWarns prims exVars vs).filter
      (fun w => w.message == "Variable '" ++ K ++ "' is not present in .env.example") = [] := by
    refine List.filter_eq_nil_iff.mpr ?_
    intro w hw
    obtain ⟨k, hmsg⟩ := formatWarns_message prims exVars vs w hw
    simp only [Bool.not_eq_true]
    rcases hmsg with h | h | h | h <;>
      · rw [h]
        exact beq_eq_false_iff_ne.mpr (keyed_message_ne (by decide) (by decide) k K)
  refine ⟨by decide, ?_, ?_, ?_⟩
  · show (ExampleValidator.missingErrors ign exVars vs).filter (fun e => e.varName == K) = []
    refine List.filter_eq_nil_iff.mpr ?_
    intro e he hp
    simp only [beq_iff_eq] at hp
    have := missingErrors_has_false ign exVars vs e he
    rw [hp, hhas] at this
    exact Bool.true_eq_false.mp this
  · show (((ExampleValidator.unusedWarns ign exVars vs ++ ExampleValidator.emptyWarns exVars vs ++
      ExampleValidator.formatWarns prims exVars vs)).filter _).length ≤ 1
    rw [List.filter_append, List.filter_append, hB, hC, List.append_nil, List.append_nil]
    unfold ExampleValidator.unusedWarns
    exact filter_filterMap_length_le_one _ _ K hg _ (dedupFirst_nodup _)
  · intro lv hlv hhasex hign
    show ((ExampleValidator.unusedWarns ign exVars vs ++ ExampleValidator.emptyWarns exVars vs ++
      ExampleValidator.formatWarns prims exVars vs)).filter _ = _
    rw [List.filter_append, List.filter_append, hB, hC, List.append_nil, List.append_nil]
    unfold ExampleValidator.unusedWarns
    refine filter_filterMap_eq_singleton _ _ K _ hg ?_ ?_ _ (dedupFirst_nodup _)
      (mem_dedupFirst hK_mem)
    · rw [hhasex, hign, hlv]
      rfl
    · exact beq_self_eq_true _

/-- Witness for C10 at a concrete duplicated key. -/
theorem duplicate_key_parser_and_unused_check_witness :
    (EnvParser.parseContent "A=1\nA=2").vars =
      [⟨"A", "1", 1, false, none⟩, ⟨"A", "2", 2, false, none⟩] ∧
    ((ExampleValidator.validate trivPrims [⟨"B", "x", 1, false, none⟩] []
        [⟨"A", "1", 1, false, none⟩, ⟨"A", "2", 3, false, none⟩]).errors.filter
        (fun e => e.varName == "A")) = [] ∧
    ((ExampleValidator.validate trivPrims [⟨"B", "x", 1, false, none⟩] []
        [⟨"A", "1", 1, false, none⟩, ⟨"A", "2", 3, false, none⟩]).warnings.filter
        (fun w => w.message == "Variable '" ++ "A" ++ "' is not present in .env.example")).length ≤ 1 ∧
    (∀ lv, jsMapGet [⟨"A", "1", 1, false, none⟩, ⟨"A", "2", 3, false, none⟩] "A" = some lv →
      jsMapHas [⟨"B", "x", 1, false, none⟩] "A" = false →
      shouldIgnore [] "A" = false →
      ((ExampleValidator.validate trivPrims [⟨"B", "x", 1, false, none⟩] []
          [⟨"A", "1", 1, false, none⟩, ⟨"A", "2", 3, false, none⟩]).warnings.filter
          (fun w => w.message == "Variable '" ++ "A" ++ "' is not present in .env.example")) =
        [⟨.unused_variable, "A", "Variable '" ++ "A" ++ "' is not present in .env.example",
          some lv.lineNumber,
          some "Add this variable to .env.example or remove it if not needed"⟩]) :=
  duplicate_key_parser_and_unused_check trivPrims [⟨"B", "x", 1, false, none⟩] []
    [⟨"A", "1", 1, false, none⟩, ⟨"A", "2", 3, false, none⟩] "A" (by decide)

/-- Each line contributes to exactly one of the four output lists. -/
lemma parseLines_count : ∀ (ls : List (List Char)) (n : Nat),
    (parseLines n ls).vars.length + (parseLines n ls).comments.length +
      (parseLines n ls).emptyLines.length + (parseLines n ls).parseErrors.length =
      ls.length := by
  intro ls
  induction ls with
  | nil => intro n; rfl
  | cons l ls ih =>
    intro n
    have hih := ih (n + 1)
    unfold parseLines
    cases hc : classifyLine l <;>
      · dsimp only
        simp only [List.length_cons]
        omega

/-- Every variable record's line number points back to a line the
classifier reads as that variable. -/
lemma parseLines_vars_spec : ∀ (ls : List (List Char)) (n : Nat),
    ∀ v ∈ (parseLines n ls).vars, n ≤ v.lineNumber ∧
      ∃ l, ls[v.lineNumber - n]? = some l ∧
        classifyLine l = .varLine v.key v.value v.isQuoted v.hasComment := by
  intro ls
  induction ls with
  | nil => intro n v hv; simp [parseLines] at hv
  | cons l ls ih =>
    intro n v
    unfold parseLines
    cases hc : classifyLine l with
    | blank =>
      intro hv
      obtain ⟨h1, lx, h2, h3⟩ := ih (n + 1) v hv
      refine ⟨by omega, lx, ?_, h3⟩
      have heq : v.lineNumber - n = (v.lineNumber - (n + 1)) + 1 := by omega
      rw [heq, List.getElem?_cons_succ]
      exact h2
    | comment c =>
      intro hv
      obtain ⟨h1, lx, h2, h3⟩ := ih (n + 1) v hv
      refine ⟨by omega, lx, ?_, h3⟩
      have heq : v.lineNumber - n = (v.lineNumber - (n + 1)) + 1 := by omega
      rw [heq, List.getElem?_cons_succ]
      exact h2
    | err m t =>
      intro hv
      obtain ⟨h1, lx, h2, h3⟩ := ih (n + 1) v hv
      refine ⟨by omega, lx, ?_, h3⟩
      have heq : v.lineNumber - n = (v.lineNumber - (n + 1)) + 1 := by omega
      rw [heq, List.getElem?_cons_succ]
      exact h2
    | varLine k val q hcm =>
      intro hv
      rcases List.mem_cons.mp hv with rfl | hv2
      · refine ⟨Nat.le_refl n, l, ?_, hc⟩
        simp [Nat.sub_self]
      · obtain ⟨h1, lx, h2, h3⟩ := ih (n + 1) v hv2
        refine ⟨by omega, lx, ?_, h3⟩
        have heq : v.lineNumber - n = (v.lineNumber - (n + 1)) + 1 := by omega
        rw [heq, List.getElem?_cons_succ]
        exact h2

/-- Every recorded blank line number points back to a blank line. -/
lemma parseLines_empty_spec : ∀ (ls : List (List Char)) (n : Nat),
    ∀ m ∈ (parseLines n ls).emptyLines, n ≤ m ∧
      ∃ l, ls[m - n]? = some l ∧ classifyLine l = .blank := by
  intro ls
  induction ls with
  | nil => intro n m hm; simp [parseLines] at hm
  | cons l ls ih =>
    intro n m
    unfold parseLines
    cases hc : classifyLine l with
    | blank =>
      intro hm
      rcases List.mem_cons.mp hm with rfl | hm2
      · refine ⟨Nat.le_refl m, l, ?_, hc⟩
        simp [Nat.sub_self]
      · obtain ⟨h1, lx, h2, h3⟩ := ih (n + 1) m hm2
        refine ⟨by omega, lx, ?_, h3⟩
        have heq : m - n = (m - (n + 1)) + 1 := by omega
        rw [heq, List.getElem?_cons_succ]
        exact h2
    | comment c =>
      intro hm
      obtain ⟨h1, lx, h2, h3⟩ := ih (n + 1) m hm
      refine ⟨by omega, lx, ?_, h3⟩
      have heq : m - n = (m - (n + 1)) + 1 := by omega
      rw [heq, List.getElem?_cons_succ]
      exact h2
    | err ms t =>
      intro hm
      obtain ⟨h1, lx, h2, h3⟩ := ih (n + 1) m hm
      refine ⟨by omega, lx, ?_, h3⟩
      have heq : m - n = (m - (n + 1)) + 1 := by omega
      rw [heq, List.getElem?_cons_succ]
      exact h2
    | varLine k val q hcm =>
      intro hm
      obtain ⟨h1, lx, h2, h3⟩ := ih (n + 1) m hm
      refine ⟨by omega, lx, ?_, h3⟩
      have heq : m - n = (m - (n + 1)) + 1 := by omega
      rw [heq, List.getElem?_cons_succ]
      exact h2

/-- Every parse error's line number points back to a line the classifier
reads as that error. -/
lemma parseLines_errors_spec : ∀ (ls : List (List Char)) (n : Nat),
    ∀ e ∈ (parseLines n ls).parseErrors, n ≤ e.lineNumber ∧
      ∃ l, ls[e.lineNumber - n]? = some l ∧ classifyLine l = .err e.message e.line := by
  intro ls
  induction ls with
  | nil => intro n e he; simp [parseLines] at he
  | cons l ls ih =>
    intro n e
    unfold parseLines
    cases hc : classifyLine l with
    | blank =>
      intro he
      obtain ⟨h1, lx, h2, h3⟩ := ih (n + 1) e he
      refine ⟨by omega, lx, ?_, h3⟩
      have heq : e.lineNumber - n = (e.lineNumber - (n + 1)) + 1 := by omega
      rw [heq, List.getElem?_cons_succ]
      exact h2
    | comment c =>
      intro he
      obtain ⟨h1, lx, h2, h3⟩ := ih (n + 1) e he
      refine ⟨by omega, lx, ?_, h3⟩
      have heq : e.lineNumber - n = (e.lineNumber - (n + 1)) + 1 := by omega
      rw [heq, List.getElem?_cons_succ]
      exact h2
    | err ms t =>
      intro he
      rcases List.mem_cons.mp he with rfl | he2
      · refine ⟨Nat.le_refl n, l, ?_, hc⟩
        simp [Nat.sub_self]
      · obtain ⟨h1, lx, h2, h3⟩ := ih (n + 1) e he2
        refine ⟨by omega, lx, ?_, h3⟩
        have heq : e.lineNumber - n = (e.lineNumber - (n + 1)) + 1 := by omega
        rw [heq, List.getElem?_cons_succ]
        exact h2
    | varLine k val q hcm =>
      intro he
      obtain ⟨h1, lx, h2, h3⟩ := ih (n + 1) e he
      refine ⟨by omega, lx, ?_, h3⟩
      have heq : e.lineNumber - n = (e.lineNumber - (n + 1)) + 1 := by omega
      rw [heq, List.getElem?_cons_succ]
      exact h2

/-- C3. `parseContent` (a total function — it never throws) classifies
each of the `n` lines obtained by splitting on `/\r?\n/` into exactly one
of the four output collections: the record counts sum to `n`, and every
recorded line number is the 1-based index of a line the per-line
classifier reads as that very record. -/
theorem parser_line_partition (content : String) :
    ((EnvParser.parseContent content).vars.length +
      (EnvParser.parseContent content).comments.length +
      (EnvParser.parseContent content).emptyLines.length +
      (EnvParser.parseContent content).parseErrors.length =
      (splitLines content.data).length) ∧
    (∀ v ∈ (EnvParser.parseContent content).vars,
      1 ≤ v.lineNumber ∧
      ∃ l, (splitLines content.data)[v.lineNumber - 1]? = some l ∧
        classifyLine l = .varLine v.key v.value v.isQuoted v.hasComment) ∧
    (∀ m ∈ (EnvParser.parseContent content).emptyLines,
      1 ≤ m ∧ ∃ l, (splitLines content.data)[m - 1]? = some l ∧
        classifyLine l = .blank) ∧
    (∀ e ∈ (EnvParser.parseContent content).parseErrors,
      1 ≤ e.lineNumber ∧
      ∃ l, (splitLines content.data)[e.lineNumber - 1]? = some l ∧
        classifyLine l = .err e.message e.line) :=
  ⟨parseLines_count (splitLines content.data) 1,
   parseLines_vars_spec (splitLines content.data) 1,
   parseLines_empty_spec (splitLines content.data) 1,
   parseLines_errors_spec (splitLines content.data) 1⟩

/-- A simple variable's rendered line holds no line-break character. -/
lemma lineOfVariable_no_newline {v : EnvVariable} (h : simpleVar v = true) :
    ∀ c ∈ EnvParser.lineOfVariable v, noLineBreak c = true := by
  have h' := h
  simp only [simpleVar, Bool.and_eq_true, List.all_eq_true, beq_iff_eq] at h'
  obtain ⟨⟨⟨⟨hkey, hcom⟩, hval⟩, -⟩, -⟩ := h'
  have hkeyc : ∀ c ∈ v.key.data, noLineBreak c = true := by
    intro c hc
    cases hkd : v.key.data with
    | nil => rw [hkd] at hc; simp at hc
    | cons k0 kr =>
      rw [hkd] at hc
      have : isIdentRest c = true := by
        have h2 := hkey
        rw [hkd] at h2
        simp only [isIdentKey, Bool.and_eq_true, List.all_eq_true] at h2
        exact h2.2 c hc
      exact isIdentRest_not_newline this
  intro c hc
  unfold EnvParser.lineOfVariable at hc
  rw [hcom] at hc
  simp only [List.append_nil] at hc
  rcases List.mem_append.mp hc with hc1 | hc1
  · exact hkeyc c hc1
  · rcases List.mem_cons.mp hc1 with rfl | hc2
    · decide
    · cases hq : v.isQuoted
      · rw [hq] at hc2
        simp only [Bool.false_eq_true, if_false] at hc2
        exact isSimpleValueChar_not_newline (hval c hc2)
      · rw [hq] at hc2
        rw [if_pos rfl] at hc2
        rcases List.mem_cons.mp hc2 with rfl | hc3
        · decide
        · rcases List.mem_append.mp hc3 with hc4 | hc4
          · exact isSimpleValueChar_not_newline (hval c hc4)
          · have h2 : c = '"' := by simpa using hc4
            subst h2
            decide

/-- Parsing the rendered lines of simple variables recovers records that
render to the same lines. -/
lemma parseLines_all_vars : ∀ (vs : List EnvVariable) (n : Nat),
    (∀ v ∈ vs, simpleVar v = true) →
    ((parseLines n (vs.map EnvParser.lineOfVariable)).vars).map EnvParser.lineOfVariable =
      vs.map EnvParser.lineOfVariable := by
  intro vs
  induction vs with
  | nil => intro n _; rfl
  | cons v vs ih =>
    intro n h
    have hv := h v (List.mem_cons_self v vs)
    have hcl := classifyLine_lineOfVariable hv
    have hcom : v.hasComment = none := by
      have h' := hv
      simp only [simpleVar, Bool.and_eq_true, beq_iff_eq] at h'
      exact h'.1.1.1.2
    show ((parseLines n
      (EnvParser.lineOfVariable v :: vs.map EnvParser.lineOfVariable)).vars).map _ = _
    unfold parseLines
    rw [hcl]
    dsimp only
    rw [List.map_cons]
    have hline : EnvParser.lineOfVariable ⟨v.key, v.value, n, v.isQuoted, none⟩ =
        EnvParser.lineOfVariable v := by
      unfold EnvParser.lineOfVariable
      rw [hcom]
    rw [hline, ih (n + 1) (fun w hw => h w (List.mem_cons_of_mem v hw))]
    rfl

/-- C4. For a list of variable records with identifier keys, no inline
comments, and values free of quotes, `#`, backslashes, line breaks and
leading or trailing whitespace, `stringify ∘ parseContent ∘ stringify`
agrees with `stringify`: the parsed records carry the same keys, values
and quoting flags. -/
theorem stringify_parse_stringify_round_trip (vs : List EnvVariable)
    (h : ∀ v ∈ vs, simpleVar v = true) :
    EnvParser.stringify ((EnvParser.parseContent (EnvParser.stringify vs)).vars) =
      EnvParser.stringify vs := by
  cases vs with
  | nil => rfl
  | cons v vs' =>
    have hne : (v :: vs').map EnvParser.lineOfVariable ≠ [] := by simp
    have hnl : ∀ l ∈ (v :: vs').map EnvParser.lineOfVariable, ∀ c ∈ l,
        noLineBreak c = true := by
      intro l hl
      obtain ⟨w, hw, rfl⟩ := List.mem_map.mp hl
      exact lineOfVariable_no_newline (h w hw)
    have hsplit : splitLines (EnvParser.stringify (v :: vs')).data =
        (v :: vs').map EnvParser.lineOfVariable :=
      splitLines_joinLines _ hne hnl
    show EnvParser.stringify
      ((parseLines 1 (splitLines (EnvParser.stringify (v :: vs')).data)).vars) = _
    rw [hsplit]
    unfold EnvParser.stringify
    congr 1
    rw [parseLines_all_vars (v :: vs') 1 h]

/-- Witness for C4 at a concrete mixed quoted/unquoted list. -/
theorem stringify_parse_stringify_round_trip_witness :
    (∀ v ∈ ([⟨"A", "1", 1, false, none⟩, ⟨"B_2", "x y", 7, true, none⟩,
        ⟨"C", "", 2, false, none⟩, ⟨"D", "a=b", 9, true, none⟩] : List EnvVariable),
      simpleVar v = true) ∧
    EnvParser.stringify ((EnvParser.parseContent (EnvParser.stringify
        [⟨"A", "1", 1, false, none⟩, ⟨"B_2", "x y", 7, true, none⟩,
         ⟨"C", "", 2, false, none⟩, ⟨"D", "a=b", 9, true, none⟩])).vars) =
      EnvParser.stringify
        [⟨"A", "1", 1, false, none⟩, ⟨"B_2", "x y", 7, true, none⟩,
         ⟨"C", "", 2, false, none⟩, ⟨"D", "a=b", 9, true, none⟩] :=
  ⟨by decide, stringify_parse_stringify_round_trip _ (by decide)⟩

end EnvGuard
